import Mathlib

/-!
# Bounded file watcher of `pkg/gui/file_watching.go`

A shallow embedding of the `fileWatcher` type and of its methods
`watchingFilename`, `popOldestFilename`, `watchFilename` and
`addFilesToFileWatcher`, together with `NewFileWatcher`, `min` and
`watchFilesForChanges`.

Modelling choices.

* A Go slice is a Lean `List`; `WatchedFilenames[0]` and `WatchedFilenames[1:]`
  are the head and the tail, `append` adds at the end.
* `MaxWatchedFiles` is a Go `int`; it is only ever compared, so it is an `Int`.
* The fields `Watcher` and `Log` are pointers to objects that live outside the
  program (`fsnotify.Watcher`, `logrus.Entry`).  Every call made on them, and
  the call of `os.Getwd`, is recorded in order in a list of `Effect`s that is
  threaded through the code; what such a call answers is given by an `Env`,
  as a function of the effects performed before it.
* `filepath.Join` is a pure library function and is a field of `Env`.
* A run-time panic of Go (index out of range, slice bounds out of range) is the
  result `none`.
* An `error` value is `Option Error`: `none` is Go's `nil`.
* The tracked files are `[]*models.File`; the pointers are taken to be non-nil,
  so a tracked file is a `File` value.
* Of `watchFilesForChanges` the sequential parts are embedded: the construction
  of the watcher with the decision to start the goroutine, and one pass of the
  `select` as a function of the value received and of the value of
  `gui.State.IsRefreshingFiles` read during that pass.
-/

namespace FileWatching

/-- Go's `error` values, identified with their message. -/
abbrev Error := String

/-- The record `models.File`, reduced to the two fields read by this file. -/
structure File where
  Name : String
  Deleted : Bool
deriving DecidableEq, Repr

/-- Calls that leave the program, in the order they are made. -/
inductive Effect where
  | NewWatcher
  | Getwd
  | Add (name : String)
  | Remove (name : String)
  | LogError (err : Error)
deriving DecidableEq, Repr

/-- The outside world: what each external call answers, given the effects
performed so far. `none` is a nil error. -/
structure Env where
  NewWatcher : List Effect → Option Error
  Getwd : List Effect → Except Error String
  Join : String → String → String
  WatcherAdd : List Effect → String → Option Error
  WatcherRemove : List Effect → String → Option Error

/-- The struct `fileWatcher` without its two pointer fields. -/
structure fileWatcher where
  WatchedFilenames : List String
  Disabled : Bool
  MaxWatchedFiles : Int
deriving DecidableEq, Repr

/-- A watcher together with the effects performed so far. -/
structure State where
  w : fileWatcher
  trace : List Effect
deriving DecidableEq, Repr

/-- The function `min` of the source file. -/
def min (a : Int) (b : Int) : Int :=
  if a < b then a else b

/-- The loop of `watchingFilename` over the watched names. -/
def watchingFilenameLoop (filename : String) : List String → Bool
  | [] => false
  | watchedFilename :: rest =>
    if watchedFilename = filename then true else watchingFilenameLoop filename rest

/-- The method `watchingFilename`. -/
def watchingFilename (w : fileWatcher) (filename : String) : Bool :=
  watchingFilenameLoop filename w.WatchedFilenames

/-- The method `popOldestFilename`; reading index 0 of an empty slice panics. -/
def popOldestFilename (env : Env) (s : State) : Option State :=
  match s.w.WatchedFilenames with
  | [] => none
  | oldestFilename :: rest =>
    let w1 : fileWatcher := { s.w with WatchedFilenames := rest }
    let t1 := s.trace ++ [Effect.Remove oldestFilename]
    match env.WatcherRemove s.trace oldestFilename with
    | some err => some { w := w1, trace := t1 ++ [Effect.LogError err] }
    | none => some { w := w1, trace := t1 }

/-- The method `watchFilename`. -/
def watchFilename (env : Env) (s : State) (filename : String) : State :=
  let t1 := s.trace ++ [Effect.Add filename]
  let t2 :=
    match env.WatcherAdd s.trace filename with
    | some err => t1 ++ [Effect.LogError err]
    | none => t1
  { w := { s.w with WatchedFilenames := s.w.WatchedFilenames ++ [filename] }, trace := t2 }

/-- One iteration of the `for` loop of `addFilesToFileWatcher`. -/
def loopBody (env : Env) (dirName : String) (s : State) (file : File) : Option State :=
  if file.Deleted then some s
  else
    let filename := env.Join dirName file.Name
    if watchingFilename s.w filename then some s
    else if (s.w.WatchedFilenames.length : Int) > s.w.MaxWatchedFiles then
      match popOldestFilename env s with
      | none => none
      | some s1 => some (watchFilename env s1 filename)
    else some (watchFilename env s filename)

/-- The `for` loop of `addFilesToFileWatcher` over the candidates. -/
def forLoop (env : Env) (dirName : String) (s : State) : List File → Option State
  | [] => some s
  | file :: rest =>
    match loopBody env dirName s file with
    | none => none
    | some s1 => forLoop env dirName s1 rest

/-- The slice expression `files[0:hi]`; it panics when `hi` is out of range. -/
def sliceTo (files : List File) (hi : Int) : Option (List File) :=
  if hi < 0 ∨ (files.length : Int) < hi then none else some (files.take hi.toNat)

/-- The method `addFilesToFileWatcher`: the new state and the returned error. -/
def addFilesToFileWatcher (env : Env) (s : State) (files : List File) :
    Option (State × Option Error) :=
  if s.w.Disabled then some (s, none)
  else if files.length = 0 then some (s, none)
  else
    let s1 : State := { s with trace := s.trace ++ [Effect.Getwd] }
    match env.Getwd s.trace with
    | Except.error err => some (s1, some err)
    | Except.ok dirName =>
      match sliceTo files (min s.w.MaxWatchedFiles files.length) with
      | none => none
      | some candidates =>
        match forLoop env dirName s1 candidates with
        | none => none
        | some s2 => some (s2, none)

/-- The function `NewFileWatcher`; `make` panics on a negative capacity. -/
def NewFileWatcher (env : Env) (trace : List Effect) (maxWatchedFiles : Int) : Option State :=
  let t1 := trace ++ [Effect.NewWatcher]
  match env.NewWatcher trace with
  | some err =>
    some { w := { WatchedFilenames := [], Disabled := true, MaxWatchedFiles := 0 },
           trace := t1 ++ [Effect.LogError err] }
  | none =>
    if maxWatchedFiles < 0 then none
    else some { w := { WatchedFilenames := [], Disabled := false,
                       MaxWatchedFiles := maxWatchedFiles },
                trace := t1 }

/-- Successive calls of `addFilesToFileWatcher`, one per list of tracked files;
the run stops at the first panic. -/
def reconcileAll (env : Env) (s : State) : List (List File) → Option State
  | [] => some s
  | files :: rest =>
    match addFilesToFileWatcher env s files with
    | none => none
    | some (s1, _) => reconcileAll env s1 rest

/-- The names passed to `Watcher.Add`, in order. -/
def subscribed : List Effect → List String
  | [] => []
  | Effect.Add name :: rest => name :: subscribed rest
  | _ :: rest => subscribed rest

/-- The names passed to `Watcher.Remove`, in order. -/
def unsubscribed : List Effect → List String
  | [] => []
  | Effect.Remove name :: rest => name :: unsubscribed rest
  | _ :: rest => unsubscribed rest

/-- The watched names after the watcher calls of a trace, starting from
`names`: each `Add` appends its name and each `Remove` drops the head. -/
def replay (names : List String) : List Effect → List String
  | [] => names
  | Effect.Add name :: rest => replay (names ++ [name]) rest
  | Effect.Remove _ :: rest => replay names.tail rest
  | _ :: rest => replay names rest

/-- Every `Add` of the trace names a path that is absent from the watched
names as they stand when it is made. -/
def addsFresh (names : List String) : List Effect → Prop
  | [] => True
  | Effect.Add name :: rest => name ∉ names ∧ addsFresh (names ++ [name]) rest
  | Effect.Remove _ :: rest => addsFresh names.tail rest
  | _ :: rest => addsFresh names rest

/-- A trace that holds logged errors only. -/
def onlyLogs (trace : List Effect) : Prop :=
  ∀ e ∈ trace, ∃ err, e = Effect.LogError err

/-- An outside world in which every call succeeds; the working directory is
`/repo` and joining puts a slash between directory and name, which is what
`filepath.Join` does on a clean directory and a plain file name. -/
def envOk : Env where
  NewWatcher := fun _ => none
  Getwd := fun _ => Except.ok "/repo"
  Join := fun dir name => dir ++ "/" ++ name
  WatcherAdd := fun _ _ => none
  WatcherRemove := fun _ _ => none

/-- An outside world like `envOk` in which `os.Getwd` fails. -/
def envNoWd : Env where
  NewWatcher := fun _ => none
  Getwd := fun _ => Except.error "getwd: no such file or directory"
  Join := fun dir name => dir ++ "/" ++ name
  WatcherAdd := fun _ _ => none
  WatcherRemove := fun _ _ => none

/-- An outside world like `envOk` in which every watcher call fails. -/
def envWatcherFails : Env where
  NewWatcher := fun _ => none
  Getwd := fun _ => Except.ok "/repo"
  Join := fun dir name => dir ++ "/" ++ name
  WatcherAdd := fun _ _ => some "too many open files"
  WatcherRemove := fun _ _ => some "cannot remove non-existent watch"

/-- A tracked file that is not deleted. -/
def tracked (name : String) : File := { Name := name, Deleted := false }

/-- A tracked file marked deleted. -/
def deleted (name : String) : File := { Name := name, Deleted := true }

/-- An active watcher with the given capacity and watched names and no effect
performed yet. -/
def active (maxWatchedFiles : Int) (names : List String) : State :=
  { w := { WatchedFilenames := names, Disabled := false, MaxWatchedFiles := maxWatchedFiles },
    trace := [] }

/-- The watcher calls of a trace: its `Add`s and `Remove`s, in order. -/
def watcherCalls : List Effect → List Effect
  | [] => []
  | Effect.Add name :: rest => Effect.Add name :: watcherCalls rest
  | Effect.Remove name :: rest => Effect.Remove name :: watcherCalls rest
  | _ :: rest => watcherCalls rest

/-- In a list of watcher calls, every `Remove` is immediately followed by an
`Add`. -/
def removeThenAdd (calls : List Effect) : Prop :=
  ∀ before oldest after, calls = before ++ Effect.Remove oldest :: after →
    ∃ name rest, after = Effect.Add name :: rest

/-- A list of names with `name` put at the end unless it is already listed. -/
def addNew (names : List String) (name : String) : List String :=
  if name ∈ names then names else names ++ [name]

/-- A list of names in the order given, later repeats of a name removed. -/
def keepFirst (names : List String) : List String :=
  names.foldl addNew []

/-- The joined paths of the tracked files that are not deleted, in the order
given. -/
def joinedPaths (join : String → String → String) (dirName : String)
    (files : List File) : List String :=
  (files.filter (fun file => !file.Deleted)).map (fun file => join dirName file.Name)

/-- The constants read by `watchFilesForChanges` that are declared outside this
file: `fsnotify.Chmod`, a value of the `uint32` type `fsnotify.Op`, and the
`int` constants `ASYNC` and `FILES` of package `gui`. -/
structure Consts where
  Chmod : Nat
  ASYNC : Int
  FILES : Int

/-- The struct `fsnotify.Event`. -/
structure Event where
  Name : String
  Op : Nat
deriving DecidableEq, Repr

/-- The struct `refreshOptions`, reduced to the two fields set in this file. -/
structure refreshOptions where
  mode : Int
  scope : List Int
deriving DecidableEq, Repr

/-- What one pass of the `select` receives: an event from `Watcher.Events` or a
value, possibly nil, from `Watcher.Errors`. -/
inductive Received where
  | event (event : Event)
  | error (err : Option Error)
deriving DecidableEq, Repr

/-- Calls made by the event loop. -/
inductive LoopEffect where
  | refreshSidePanels (options : refreshOptions)
  | LogError (err : Error)
deriving DecidableEq, Repr

/-- One pass of the `for`/`select` loop of `watchFilesForChanges`, given the
value of `gui.State.IsRefreshingFiles` read during it: the calls it makes. -/
def loopIteration (c : Consts) (IsRefreshingFiles : Bool) : Received → List LoopEffect
  | Received.event event =>
    if event.Op = c.Chmod then []
    else if !IsRefreshingFiles then
      [LoopEffect.refreshSidePanels { mode := c.ASYNC, scope := [c.FILES] }]
    else []
  | Received.error err =>
    match err with
    | some e => [LoopEffect.LogError e]
    | none => []

/-- The number of calls of `refreshSidePanels` among the calls of the loop. -/
def refreshCalls : List LoopEffect → Nat
  | [] => 0
  | LoopEffect.refreshSidePanels _ :: rest => refreshCalls rest + 1
  | LoopEffect.LogError _ :: rest => refreshCalls rest

/-- The function `watchFilesForChanges` up to the `go` statement: the watcher
stored in `gui.fileWatcher` and whether the event loop is started.  The
argument stands for what `gui.maxWatchedFiles()` reads from the configuration. -/
def watchFilesForChanges (env : Env) (trace : List Effect) (maxWatchedFiles : Int) :
    Option (State × Bool) :=
  match NewFileWatcher env trace maxWatchedFiles with
  | none => none
  | some s => if s.w.Disabled then some (s, false) else some (s, true)

/-- The constants as the libraries declare them: `fsnotify.Chmod` is `1 << 4`;
the two constants of package `gui` are given arbitrary distinct values. -/
def constsOf : Consts := { Chmod := 16, ASYNC := 1, FILES := 2 }

/-- An outside world like `envOk` in which `fsnotify.NewWatcher` fails. -/
def envNoWatcher : Env where
  NewWatcher := fun _ => some "too many open files"
  Getwd := fun _ => Except.ok "/repo"
  Join := fun dir name => dir ++ "/" ++ name
  WatcherAdd := fun _ _ => none
  WatcherRemove := fun _ _ => none

/-! ## Elementary facts about the helpers -/

theorem watchingFilenameLoop_iff (filename : String) (names : List String) :
    watchingFilenameLoop filename names = true ↔ filename ∈ names := by
  induction names with
  | nil => simp [watchingFilenameLoop]
  | cons x xs ih =>
    by_cases h : x = filename
    · simp [watchingFilenameLoop, h]
    · have h2 : ¬ filename = x := fun e => h e.symm
      simp [watchingFilenameLoop, h, h2, ih]

theorem watchingFilename_iff (w : fileWatcher) (filename : String) :
    watchingFilename w filename = true ↔ filename ∈ w.WatchedFilenames :=
  watchingFilenameLoop_iff filename w.WatchedFilenames

theorem subscribed_append (a b : List Effect) :
    subscribed (a ++ b) = subscribed a ++ subscribed b := by
  induction a with
  | nil => simp [subscribed]
  | cons e es ih => cases e <;> simp [subscribed, ih]

theorem unsubscribed_append (a b : List Effect) :
    unsubscribed (a ++ b) = unsubscribed a ++ unsubscribed b := by
  induction a with
  | nil => simp [unsubscribed]
  | cons e es ih => cases e <;> simp [unsubscribed, ih]

theorem onlyLogs_nil : onlyLogs [] := by
  intro e he
  cases he

theorem onlyLogs_single (err : Error) : onlyLogs [Effect.LogError err] := by
  intro e he
  simp at he
  exact ⟨err, he⟩

theorem subscribed_onlyLogs (trace : List Effect) (h : onlyLogs trace) :
    subscribed trace = [] := by
  induction trace with
  | nil => rfl
  | cons e es ih =>
    obtain ⟨err, rfl⟩ := h e (by simp)
    simpa [subscribed] using ih (fun x hx => h x (by simp [hx]))

theorem unsubscribed_onlyLogs (trace : List Effect) (h : onlyLogs trace) :
    unsubscribed trace = [] := by
  induction trace with
  | nil => rfl
  | cons e es ih =>
    obtain ⟨err, rfl⟩ := h e (by simp)
    simpa [unsubscribed] using ih (fun x hx => h x (by simp [hx]))

theorem replay_onlyLogs (names : List String) (trace : List Effect) (h : onlyLogs trace) :
    replay names trace = names := by
  induction trace with
  | nil => rfl
  | cons e es ih =>
    obtain ⟨err, rfl⟩ := h e (by simp)
    simpa [replay] using ih (fun x hx => h x (by simp [hx]))

theorem addsFresh_onlyLogs (names : List String) (trace : List Effect) (h : onlyLogs trace) :
    addsFresh names trace := by
  induction trace with
  | nil => trivial
  | cons e es ih =>
    obtain ⟨err, rfl⟩ := h e (by simp)
    simpa [addsFresh] using ih (fun x hx => h x (by simp [hx]))

theorem replay_append (names : List String) (a b : List Effect) :
    replay names (a ++ b) = replay (replay names a) b := by
  induction a generalizing names with
  | nil => rfl
  | cons e es ih => cases e <;> simp [replay, ih]

theorem addsFresh_append (names : List String) (a b : List Effect) :
    addsFresh names (a ++ b) ↔ addsFresh names a ∧ addsFresh (replay names a) b := by
  induction a generalizing names with
  | nil => simp [addsFresh, replay]
  | cons e es ih => cases e <;> simp [addsFresh, replay, ih, and_assoc]

/-- In a trace whose `Add`s are fresh, the name of each `Add` is absent from
the names replayed up to it. -/
theorem addsFresh_split (names : List String) (trace before after : List Effect)
    (name : String) (h : addsFresh names trace)
    (hs : trace = before ++ Effect.Add name :: after) :
    name ∉ replay names before := by
  subst hs
  have h2 := ((addsFresh_append names before (Effect.Add name :: after)).1 h).2
  exact h2.1

/-- What `watchFilename` does: one `Add`, possibly one logged error, and the
name appended whatever `Add` answered. -/
theorem watchFilename_spec (env : Env) (s : State) (filename : String) :
    (watchFilename env s filename).w =
        { s.w with WatchedFilenames := s.w.WatchedFilenames ++ [filename] } ∧
      ∃ logged, (watchFilename env s filename).trace =
          s.trace ++ Effect.Add filename :: logged ∧ onlyLogs logged := by
  refine ⟨rfl, ?_⟩
  unfold watchFilename
  cases h : env.WatcherAdd s.trace filename with
  | none => exact ⟨[], by simp, onlyLogs_nil⟩
  | some err => exact ⟨[Effect.LogError err], by simp, onlyLogs_single err⟩

/-- What `popOldestFilename` does on a non-empty list: one `Remove` of the
head, possibly one logged error, and the head dropped whatever `Remove`
answered. -/
theorem popOldestFilename_spec (env : Env) (s : State) (oldest : String) (rest : List String)
    (h : s.w.WatchedFilenames = oldest :: rest) :
    ∃ s1 logged, popOldestFilename env s = some s1 ∧
      s1.w = { s.w with WatchedFilenames := rest } ∧
      s1.trace = s.trace ++ Effect.Remove oldest :: logged ∧ onlyLogs logged := by
  cases h2 : env.WatcherRemove s.trace oldest with
  | none =>
    refine ⟨{ w := { s.w with WatchedFilenames := rest },
              trace := s.trace ++ [Effect.Remove oldest] }, [], ?_, rfl, rfl, onlyLogs_nil⟩
    simp [popOldestFilename, h, h2]
  | some err =>
    refine ⟨{ w := { s.w with WatchedFilenames := rest },
              trace := s.trace ++ [Effect.Remove oldest] ++ [Effect.LogError err] },
            [Effect.LogError err], ?_, rfl, by simp, onlyLogs_single err⟩
    simp [popOldestFilename, h, h2]

/-- On an empty list `popOldestFilename` panics. -/
theorem popOldestFilename_nil (env : Env) (s : State) (h : s.w.WatchedFilenames = []) :
    popOldestFilename env s = none := by
  simp [popOldestFilename, h]

/-- When `popOldestFilename` returns, the list it was given was not empty. -/
theorem popOldestFilename_some (env : Env) (s s1 : State)
    (h : popOldestFilename env s = some s1) :
    ∃ oldest rest, s.w.WatchedFilenames = oldest :: rest := by
  cases hL : s.w.WatchedFilenames with
  | nil => rw [popOldestFilename_nil env s hL] at h; cases h
  | cons oldest rest => exact ⟨oldest, rest, rfl⟩

/-! ## One iteration of the loop -/

/-- The three ways an iteration can end: the candidate is skipped, it is
watched without eviction, or the oldest name is evicted first. -/
theorem loopBody_cases (env : Env) (dirName : String) (s s2 : State) (file : File)
    (h : loopBody env dirName s file = some s2) :
    (s2 = s ∧ (file.Deleted = true ∨ env.Join dirName file.Name ∈ s.w.WatchedFilenames)) ∨
    (file.Deleted = false ∧ env.Join dirName file.Name ∉ s.w.WatchedFilenames ∧
      (s.w.WatchedFilenames.length : Int) ≤ s.w.MaxWatchedFiles ∧
      s2 = watchFilename env s (env.Join dirName file.Name)) ∨
    (file.Deleted = false ∧ env.Join dirName file.Name ∉ s.w.WatchedFilenames ∧
      s.w.MaxWatchedFiles < (s.w.WatchedFilenames.length : Int) ∧
      ∃ s1, popOldestFilename env s = some s1 ∧
        s2 = watchFilename env s1 (env.Join dirName file.Name)) := by
  unfold loopBody at h
  by_cases hd : file.Deleted = true
  · simp [hd] at h
    exact Or.inl ⟨h.symm, Or.inl hd⟩
  · have hd2 : file.Deleted = false := by simpa using hd
    by_cases hw : watchingFilename s.w (env.Join dirName file.Name) = true
    · simp [hd2, hw] at h
      exact Or.inl ⟨h.symm, Or.inr ((watchingFilename_iff _ _).1 hw)⟩
    · have hn : env.Join dirName file.Name ∉ s.w.WatchedFilenames :=
        fun hm => hw ((watchingFilename_iff _ _).2 hm)
      by_cases hl : s.w.MaxWatchedFiles < (s.w.WatchedFilenames.length : Int)
      · cases hp : popOldestFilename env s with
        | none => simp [hd2, hw, hl, hp] at h
        | some s1 =>
          simp [hd2, hw, hl, hp] at h
          exact Or.inr (Or.inr ⟨hd2, hn, hl, s1, rfl, h.symm⟩)
      · simp [hd2, hw, hl] at h
        exact Or.inr (Or.inl ⟨hd2, hn, by omega, h.symm⟩)

/-- A skipped candidate leaves the state as it is. -/
theorem loopBody_skip (env : Env) (dirName : String) (s : State) (file : File)
    (h : file.Deleted = true ∨ env.Join dirName file.Name ∈ s.w.WatchedFilenames) :
    loopBody env dirName s file = some s := by
  unfold loopBody
  rcases h with h | h
  · simp [h]
  · have hw := (watchingFilename_iff s.w (env.Join dirName file.Name)).2 h
    by_cases hd : file.Deleted = true
    · simp [hd]
    · simp [hd, hw]

/-- With a capacity that is not negative an iteration never panics. -/
theorem loopBody_total (env : Env) (dirName : String) (s : State) (file : File)
    (hM : 0 ≤ s.w.MaxWatchedFiles) :
    ∃ s2, loopBody env dirName s file = some s2 := by
  unfold loopBody
  by_cases hd : file.Deleted = true
  · exact ⟨s, by simp [hd]⟩
  · by_cases hw : watchingFilename s.w (env.Join dirName file.Name) = true
    · exact ⟨s, by simp [hd, hw]⟩
    · by_cases hl : s.w.MaxWatchedFiles < (s.w.WatchedFilenames.length : Int)
      · have hne : ∃ oldest rest, s.w.WatchedFilenames = oldest :: rest := by
          cases hL : s.w.WatchedFilenames with
          | nil =>
            rw [hL] at hl
            simp at hl
            omega
          | cons oldest rest => exact ⟨oldest, rest, rfl⟩
        obtain ⟨oldest, rest, hL⟩ := hne
        obtain ⟨s1, _, hp, _⟩ := popOldestFilename_spec env s oldest rest hL
        exact ⟨watchFilename env s1 (env.Join dirName file.Name), by
          simp [hd, hw, hl, hp]⟩
      · exact ⟨watchFilename env s (env.Join dirName file.Name), by simp [hd, hw, hl]⟩

/-- An iteration changes neither `Disabled` nor `MaxWatchedFiles`. -/
theorem loopBody_frame (env : Env) (dirName : String) (s s2 : State) (file : File)
    (h : loopBody env dirName s file = some s2) :
    s2.w.Disabled = s.w.Disabled ∧ s2.w.MaxWatchedFiles = s.w.MaxWatchedFiles := by
  rcases loopBody_cases env dirName s s2 file h with ⟨rfl, _⟩ | ⟨_, _, _, rfl⟩ |
    ⟨_, _, _, s1, hp, rfl⟩
  · exact ⟨rfl, rfl⟩
  · exact ⟨rfl, rfl⟩
  · cases hL : s.w.WatchedFilenames with
    | nil => simp [popOldestFilename, hL] at hp
    | cons oldest rest =>
      obtain ⟨s1b, _, hp2, hw, _⟩ := popOldestFilename_spec env s oldest rest hL
      rw [hp] at hp2
      cases hp2
      simp [watchFilename, hw]

/-- The shape of an iteration: what it does to the watched names and which
calls it adds to the trace. -/
theorem loopBody_shape (env : Env) (dirName : String) (s s2 : State) (file : File)
    (h : loopBody env dirName s file = some s2) :
    (s2 = s ∧ (file.Deleted = true ∨ env.Join dirName file.Name ∈ s.w.WatchedFilenames)) ∨
    (file.Deleted = false ∧ env.Join dirName file.Name ∉ s.w.WatchedFilenames ∧
      (s.w.WatchedFilenames.length : Int) ≤ s.w.MaxWatchedFiles ∧
      ∃ logged, onlyLogs logged ∧
        s2.w = { s.w with
          WatchedFilenames := s.w.WatchedFilenames ++ [env.Join dirName file.Name] } ∧
        s2.trace = s.trace ++ Effect.Add (env.Join dirName file.Name) :: logged) ∨
    (file.Deleted = false ∧ env.Join dirName file.Name ∉ s.w.WatchedFilenames ∧
      s.w.MaxWatchedFiles < (s.w.WatchedFilenames.length : Int) ∧
      ∃ oldest rest logged1 logged2, onlyLogs logged1 ∧ onlyLogs logged2 ∧
        s.w.WatchedFilenames = oldest :: rest ∧
        s2.w = { s.w with WatchedFilenames := rest ++ [env.Join dirName file.Name] } ∧
        s2.trace = s.trace ++ Effect.Remove oldest :: logged1 ++
          Effect.Add (env.Join dirName file.Name) :: logged2) := by
  rcases loopBody_cases env dirName s s2 file h with h1 | ⟨hd, hn, hl, rfl⟩ |
    ⟨hd, hn, hl, s1, hp, rfl⟩
  · exact Or.inl h1
  · obtain ⟨hw, logged, ht, hlog⟩ := watchFilename_spec env s (env.Join dirName file.Name)
    exact Or.inr (Or.inl ⟨hd, hn, hl, logged, hlog, hw, ht⟩)
  · obtain ⟨oldest, rest, hL⟩ := popOldestFilename_some env s s1 hp
    obtain ⟨s1b, logged1, hp2, hw1, ht1, hlog1⟩ := popOldestFilename_spec env s oldest rest hL
    rw [hp] at hp2
    cases hp2
    obtain ⟨hw2, logged2, ht2, hlog2⟩ := watchFilename_spec env s1 (env.Join dirName file.Name)
    refine Or.inr (Or.inr ⟨hd, hn, hl, oldest, rest, logged1, logged2, hlog1, hlog2, hL, ?_, ?_⟩)
    · rw [hw2, hw1]
    · rw [ht2, ht1]

/-! ## The loop -/

/-- A property kept by every iteration over a candidate is kept by the loop. -/
theorem forLoop_inv (env : Env) (dirName : String) (Inv : State → Prop)
    (candidates : List File)
    (hstep : ∀ s file s2, file ∈ candidates → Inv s →
      loopBody env dirName s file = some s2 → Inv s2)
    (s s2 : State) (h0 : Inv s) (h : forLoop env dirName s candidates = some s2) :
    Inv s2 := by
  induction candidates generalizing s with
  | nil =>
    simp [forLoop] at h
    exact h ▸ h0
  | cons file rest ih =>
    unfold forLoop at h
    cases hb : loopBody env dirName s file with
    | none => simp [hb] at h
    | some s1 =>
      simp [hb] at h
      exact ih (fun t f t2 hf => hstep t f t2 (List.mem_cons_of_mem _ hf)) s1
        (hstep s file s1 (List.mem_cons_self _ _) h0 hb) h

/-- The loop changes neither `Disabled` nor `MaxWatchedFiles`. -/
theorem forLoop_frame (env : Env) (dirName : String) (candidates : List File)
    (s s2 : State) (h : forLoop env dirName s candidates = some s2) :
    s2.w.Disabled = s.w.Disabled ∧ s2.w.MaxWatchedFiles = s.w.MaxWatchedFiles := by
  refine forLoop_inv env dirName
    (fun t => t.w.Disabled = s.w.Disabled ∧ t.w.MaxWatchedFiles = s.w.MaxWatchedFiles)
    candidates ?_ s s2 ⟨rfl, rfl⟩ h
  intro t f t2 _ hi hb
  obtain ⟨h1, h2⟩ := loopBody_frame env dirName t t2 f hb
  exact ⟨h1.trans hi.1, h2.trans hi.2⟩

/-- With a capacity that is not negative the loop never panics. -/
theorem forLoop_total (env : Env) (dirName : String) (candidates : List File)
    (s : State) (hM : 0 ≤ s.w.MaxWatchedFiles) :
    ∃ s2, forLoop env dirName s candidates = some s2 := by
  induction candidates generalizing s with
  | nil => exact ⟨s, rfl⟩
  | cons file rest ih =>
    obtain ⟨s1, hb⟩ := loopBody_total env dirName s file hM
    have hM1 : 0 ≤ s1.w.MaxWatchedFiles := by
      rw [(loopBody_frame env dirName s s1 file hb).2]
      exact hM
    obtain ⟨s2, h2⟩ := ih s1 hM1
    exact ⟨s2, by simp [forLoop, hb, h2]⟩

/-- A loop over candidates that are all deleted or already watched leaves the
state as it is. -/
theorem forLoop_skip (env : Env) (dirName : String) (candidates : List File) (s : State)
    (h : ∀ file ∈ candidates,
      file.Deleted = true ∨ env.Join dirName file.Name ∈ s.w.WatchedFilenames) :
    forLoop env dirName s candidates = some s := by
  induction candidates with
  | nil => rfl
  | cons file rest ih =>
    have hb := loopBody_skip env dirName s file (h file (List.mem_cons_self _ _))
    simp [forLoop, hb]
    exact ih (fun f hf => h f (List.mem_cons_of_mem _ hf))

/-- The calls of a loop: the trace grows by a list of calls that, replayed on
the names watched before, gives the names watched after; every `Add` in it is
fresh and comes from a candidate that is not deleted; there are no more `Add`s
than candidates and no more `Remove`s than `Add`s. -/
theorem forLoop_calls (env : Env) (dirName : String) (candidates : List File)
    (s s2 : State) (h : forLoop env dirName s candidates = some s2) :
    ∃ calls, s2.trace = s.trace ++ calls ∧
      s2.w.WatchedFilenames = replay s.w.WatchedFilenames calls ∧
      addsFresh s.w.WatchedFilenames calls ∧
      (∀ name ∈ subscribed calls, ∃ file ∈ candidates,
        file.Deleted = false ∧ name = env.Join dirName file.Name) ∧
      (subscribed calls).length ≤ candidates.length ∧
      (unsubscribed calls).length ≤ (subscribed calls).length := by
  induction candidates generalizing s with
  | nil =>
    simp [forLoop] at h
    subst h
    exact ⟨[], by simp, rfl, trivial, by simp [subscribed], by simp [subscribed],
      by simp [subscribed, unsubscribed]⟩
  | cons file rest ih =>
    unfold forLoop at h
    cases hb : loopBody env dirName s file with
    | none => simp [hb] at h
    | some s1 =>
      simp [hb] at h
      obtain ⟨calls, ht, hr, hf, hfrom, hcnt, hrem⟩ := ih s1 h
      rcases loopBody_shape env dirName s s1 file hb with ⟨rfl, _⟩ |
        ⟨hd, hn, _, logged, hlog, hw, ht1⟩ |
        ⟨hd, hn, _, oldest, tl, logged1, logged2, hlog1, hlog2, hL, hw, ht1⟩
      · refine ⟨calls, ht, hr, hf, ?_, ?_, hrem⟩
        · intro name hname
          obtain ⟨f, hfm, hfd⟩ := hfrom name hname
          exact ⟨f, List.mem_cons_of_mem _ hfm, hfd⟩
        · simp
          omega
      · have hw1 : s1.w.WatchedFilenames =
            s.w.WatchedFilenames ++ [env.Join dirName file.Name] := by rw [hw]
        refine ⟨Effect.Add (env.Join dirName file.Name) :: logged ++ calls, ?_, ?_, ?_, ?_, ?_, ?_⟩
        · rw [ht, ht1]
          simp
        · rw [hr, hw1]
          simp [replay, replay_append, replay_onlyLogs _ _ hlog]
        · have hrest : addsFresh (s.w.WatchedFilenames ++ [env.Join dirName file.Name])
              (logged ++ calls) := by
            rw [addsFresh_append, replay_onlyLogs _ _ hlog, ← hw1]
            exact ⟨addsFresh_onlyLogs _ _ hlog, hf⟩
          exact ⟨hn, hrest⟩
        · intro name hname
          simp [subscribed, subscribed_append, subscribed_onlyLogs _ hlog] at hname
          rcases hname with rfl | hname
          · exact ⟨file, List.mem_cons_self _ _, hd, rfl⟩
          · obtain ⟨f, hfm, hfd⟩ := hfrom name hname
            exact ⟨f, List.mem_cons_of_mem _ hfm, hfd⟩
        · simp [subscribed, subscribed_append, subscribed_onlyLogs _ hlog]
          omega
        · simp [subscribed, subscribed_append, subscribed_onlyLogs _ hlog,
            unsubscribed, unsubscribed_append, unsubscribed_onlyLogs _ hlog]
          omega
      · have hw1 : s1.w.WatchedFilenames = tl ++ [env.Join dirName file.Name] := by rw [hw]
        refine ⟨Effect.Remove oldest :: logged1 ++
          Effect.Add (env.Join dirName file.Name) :: logged2 ++ calls, ?_, ?_, ?_, ?_, ?_, ?_⟩
        · rw [ht, ht1]
          simp
        · rw [hr, hw1, hL]
          simp [replay, replay_append, replay_onlyLogs _ _ hlog1, replay_onlyLogs _ _ hlog2]
        · have hrest : addsFresh (tl ++ [env.Join dirName file.Name]) (logged2 ++ calls) := by
            rw [addsFresh_append, replay_onlyLogs _ _ hlog2, ← hw1]
            exact ⟨addsFresh_onlyLogs _ _ hlog2, hf⟩
          have hnt : env.Join dirName file.Name ∉ tl := by
            intro hm
            exact hn (by rw [hL]; exact List.mem_cons_of_mem _ hm)
          have hadd : addsFresh tl (Effect.Add (env.Join dirName file.Name) :: (logged2 ++ calls)) :=
            ⟨hnt, hrest⟩
          have hall : addsFresh tl
              (logged1 ++ Effect.Add (env.Join dirName file.Name) :: (logged2 ++ calls)) := by
            rw [addsFresh_append, replay_onlyLogs _ _ hlog1]
            exact ⟨addsFresh_onlyLogs _ _ hlog1, hadd⟩
          rw [hL]
          have he : Effect.Remove oldest :: logged1 ++
              Effect.Add (env.Join dirName file.Name) :: logged2 ++ calls =
              Effect.Remove oldest ::
                (logged1 ++ Effect.Add (env.Join dirName file.Name) :: (logged2 ++ calls)) := by
            simp
          rw [he]
          exact hall
        · intro name hname
          simp [subscribed, subscribed_append, subscribed_onlyLogs _ hlog1,
            subscribed_onlyLogs _ hlog2] at hname
          rcases hname with rfl | hname
          · exact ⟨file, List.mem_cons_self _ _, hd, rfl⟩
          · obtain ⟨f, hfm, hfd⟩ := hfrom name hname
            exact ⟨f, List.mem_cons_of_mem _ hfm, hfd⟩
        · simp [subscribed, subscribed_append, subscribed_onlyLogs _ hlog1,
            subscribed_onlyLogs _ hlog2]
          omega
        · simp [subscribed, subscribed_append, subscribed_onlyLogs _ hlog1,
            subscribed_onlyLogs _ hlog2, unsubscribed, unsubscribed_append,
            unsubscribed_onlyLogs _ hlog1, unsubscribed_onlyLogs _ hlog2]
          omega

/-! ## The whole call -/

theorem min_le_right (a : Int) (b : Int) : min a b ≤ b := by
  unfold min
  split <;> omega

theorem min_nonneg (a : Int) (b : Int) (ha : 0 ≤ a) (hb : 0 ≤ b) : 0 ≤ min a b := by
  unfold min
  split <;> omega

/-- The slice `files[0:min(MaxWatchedFiles, len(files))]` is in range as soon
as the capacity is not negative. -/
theorem sliceTo_min (files : List File) (m : Int) (hm : 0 ≤ m) :
    sliceTo files (min m files.length) = some (files.take (min m files.length).toNat) := by
  have h1 := min_le_right m files.length
  have h2 := min_nonneg m files.length hm (by omega)
  unfold sliceTo
  rw [if_neg]
  omega

/-- A disabled watcher returns at once. -/
theorem addFiles_disabled (env : Env) (s : State) (files : List File)
    (h : s.w.Disabled = true) :
    addFilesToFileWatcher env s files = some (s, none) := by
  simp [addFilesToFileWatcher, h]

/-- An empty list returns at once. -/
theorem addFiles_nil (env : Env) (s : State) :
    addFilesToFileWatcher env s [] = some (s, none) := by
  simp [addFilesToFileWatcher]

/-- When `os.Getwd` fails the error is returned and nothing else is done. -/
theorem addFiles_getwd_error (env : Env) (s : State) (files : List File) (err : Error)
    (hd : s.w.Disabled = false) (hf : files ≠ [])
    (hg : env.Getwd s.trace = Except.error err) :
    addFilesToFileWatcher env s files =
      some ({ s with trace := s.trace ++ [Effect.Getwd] }, some err) := by
  have hl : files.length ≠ 0 := fun h => hf (List.length_eq_zero.1 h)
  simp [addFilesToFileWatcher, hd, hl, hg]

/-- When `os.Getwd` succeeds and the capacity is not negative the call is the
loop over the first `min(MaxWatchedFiles, len(files))` tracked files. -/
theorem addFiles_getwd_ok (env : Env) (s : State) (files : List File) (dirName : String)
    (hd : s.w.Disabled = false) (hf : files ≠ []) (hM : 0 ≤ s.w.MaxWatchedFiles)
    (hg : env.Getwd s.trace = Except.ok dirName) :
    addFilesToFileWatcher env s files =
      (forLoop env dirName { s with trace := s.trace ++ [Effect.Getwd] }
        (files.take (min s.w.MaxWatchedFiles files.length).toNat)).map
        (fun s2 => (s2, none)) := by
  have hl : files.length ≠ 0 := fun h => hf (List.length_eq_zero.1 h)
  simp only [addFilesToFileWatcher, hd, hl, hg, sliceTo_min files _ hM]
  cases forLoop env dirName { s with trace := s.trace ++ [Effect.Getwd] }
    (files.take (min s.w.MaxWatchedFiles files.length).toNat) <;> simp

/-- With a capacity that is not negative the call returns. -/
theorem addFiles_total (env : Env) (s : State) (files : List File)
    (hM : 0 ≤ s.w.MaxWatchedFiles) :
    ∃ s2 r, addFilesToFileWatcher env s files = some (s2, r) := by
  by_cases hd : s.w.Disabled = true
  · exact ⟨s, none, addFiles_disabled env s files hd⟩
  · have hd2 : s.w.Disabled = false := by simpa using hd
    by_cases hf : files = []
    · subst hf
      exact ⟨s, none, addFiles_nil env s⟩
    · cases hg : env.Getwd s.trace with
      | error err => exact ⟨_, _, addFiles_getwd_error env s files err hd2 hf hg⟩
      | ok dirName =>
        obtain ⟨s2, h2⟩ := forLoop_total env dirName
          (files.take (min s.w.MaxWatchedFiles files.length).toNat)
          { s with trace := s.trace ++ [Effect.Getwd] } hM
        exact ⟨s2, none, by rw [addFiles_getwd_ok env s files dirName hd2 hf hM hg, h2]; rfl⟩

/-- With a negative capacity the slice expression panics. -/
theorem sliceTo_min_neg (files : List File) (m : Int) (hm : m < 0) :
    sliceTo files (min m files.length) = none := by
  have h : min m files.length = m := by
    unfold min
    rw [if_pos]
    omega
  rw [h]
  unfold sliceTo
  rw [if_pos]
  exact Or.inl hm

/-- The calls of `addFilesToFileWatcher` when it returns: neither `Disabled`
nor `MaxWatchedFiles` changes; the trace grows by a list of calls that,
replayed on the names watched before, gives the names watched after; every
`Add` in it is fresh and names the join of the working directory with the name
of one of the first `min(MaxWatchedFiles, len(files))` tracked files that is
not deleted; there are at most that many `Add`s and no more `Remove`s than
`Add`s. -/
theorem addFiles_calls (env : Env) (s s2 : State) (files : List File) (r : Option Error)
    (h : addFilesToFileWatcher env s files = some (s2, r)) :
    s2.w.Disabled = s.w.Disabled ∧ s2.w.MaxWatchedFiles = s.w.MaxWatchedFiles ∧
    ∃ calls, s2.trace = s.trace ++ calls ∧
      s2.w.WatchedFilenames = replay s.w.WatchedFilenames calls ∧
      addsFresh s.w.WatchedFilenames calls ∧
      (∀ name ∈ subscribed calls, ∃ dirName file,
        env.Getwd s.trace = Except.ok dirName ∧
        file ∈ files.take (min s.w.MaxWatchedFiles files.length).toNat ∧
        file.Deleted = false ∧ name = env.Join dirName file.Name) ∧
      (subscribed calls).length ≤ (min s.w.MaxWatchedFiles files.length).toNat ∧
      (unsubscribed calls).length ≤ (subscribed calls).length := by
  have hnil : s2 = s → s2.w.Disabled = s.w.Disabled ∧
      s2.w.MaxWatchedFiles = s.w.MaxWatchedFiles ∧
      ∃ calls, s2.trace = s.trace ++ calls ∧
        s2.w.WatchedFilenames = replay s.w.WatchedFilenames calls ∧
        addsFresh s.w.WatchedFilenames calls ∧
        (∀ name ∈ subscribed calls, ∃ dirName file,
          env.Getwd s.trace = Except.ok dirName ∧
          file ∈ files.take (min s.w.MaxWatchedFiles files.length).toNat ∧
          file.Deleted = false ∧ name = env.Join dirName file.Name) ∧
        (subscribed calls).length ≤ (min s.w.MaxWatchedFiles files.length).toNat ∧
        (unsubscribed calls).length ≤ (subscribed calls).length := by
    intro he
    subst he
    exact ⟨rfl, rfl, [], by simp, rfl, trivial, by simp [subscribed], by simp [subscribed],
      by simp [subscribed, unsubscribed]⟩
  by_cases hd : s.w.Disabled = true
  · rw [addFiles_disabled env s files hd] at h
    simp at h
    exact hnil h.1.symm
  · have hd2 : s.w.Disabled = false := by simpa using hd
    by_cases hf : files = []
    · subst hf
      rw [addFiles_nil env s] at h
      simp at h
      exact hnil h.1.symm
    · cases hg : env.Getwd s.trace with
      | error err =>
        rw [addFiles_getwd_error env s files err hd2 hf hg] at h
        simp at h
        obtain ⟨h1, _⟩ := h
        subst h1
        exact ⟨rfl, rfl, [Effect.Getwd], rfl, rfl, trivial, by simp [subscribed],
          by simp [subscribed], by simp [subscribed, unsubscribed]⟩
      | ok dirName =>
        have hl : files.length ≠ 0 := fun h0 => hf (List.length_eq_zero.1 h0)
        by_cases hM : 0 ≤ s.w.MaxWatchedFiles
        · rw [addFiles_getwd_ok env s files dirName hd2 hf hM hg] at h
          cases hloop : forLoop env dirName { s with trace := s.trace ++ [Effect.Getwd] }
              (files.take (min s.w.MaxWatchedFiles files.length).toNat) with
          | none => rw [hloop] at h; simp at h
          | some t =>
            rw [hloop] at h
            simp at h
            obtain ⟨h1, _⟩ := h
            subst h1
            obtain ⟨hfd, hfm⟩ := forLoop_frame env dirName _ _ _ hloop
            obtain ⟨calls, ht, hr, hfr, hfrom, hcnt, hrem⟩ :=
              forLoop_calls env dirName _ _ _ hloop
            refine ⟨hfd, hfm, Effect.Getwd :: calls, ?_, ?_, ?_, ?_, ?_, ?_⟩
            · rw [ht]
              simp
            · rw [hr]
              rfl
            · exact hfr
            · intro name hname
              have hname2 : name ∈ subscribed calls := by simpa [subscribed] using hname
              obtain ⟨f, hfmem, hfdel, hfn⟩ := hfrom name hname2
              exact ⟨dirName, f, rfl, hfmem, hfdel, hfn⟩
            · have hlen := List.length_take_le (min s.w.MaxWatchedFiles files.length).toNat files
              simp only [subscribed]
              omega
            · simpa [subscribed, unsubscribed] using hrem
        · have hs := sliceTo_min_neg files s.w.MaxWatchedFiles (by omega)
          simp [addFilesToFileWatcher, hd2, hl, hg, hs] at h

/-- Replaying fresh `Add`s and `Remove`s on a list without repeats gives a
list without repeats. -/
theorem replay_nodup (names : List String) (calls : List Effect)
    (hnd : names.Nodup) (hf : addsFresh names calls) : (replay names calls).Nodup := by
  induction calls generalizing names with
  | nil => exact hnd
  | cons e es ih =>
    cases e with
    | NewWatcher => exact ih names hnd hf
    | Getwd => exact ih names hnd hf
    | LogError err => exact ih names hnd hf
    | Add name =>
      have hnd2 : (names ++ [name]).Nodup := by
        rw [List.nodup_append]
        refine ⟨hnd, List.nodup_singleton name, ?_⟩
        intro a ha hb
        simp at hb
        subst hb
        exact hf.1 ha
      exact ih (names ++ [name]) hnd2 hf.2
    | Remove name =>
      exact ih names.tail (hnd.sublist (List.tail_sublist names)) hf

/-- Replaying a trace without `Add` and without `Remove` changes nothing. -/
theorem replay_quiet (names : List String) (calls : List Effect)
    (ha : subscribed calls = []) (hr : unsubscribed calls = []) :
    replay names calls = names := by
  induction calls generalizing names with
  | nil => rfl
  | cons e es ih =>
    cases e with
    | NewWatcher => exact ih names (by simpa [subscribed] using ha) (by simpa [unsubscribed] using hr)
    | Getwd => exact ih names (by simpa [subscribed] using ha) (by simpa [unsubscribed] using hr)
    | LogError err =>
      exact ih names (by simpa [subscribed] using ha) (by simpa [unsubscribed] using hr)
    | Add name => simp [subscribed] at ha
    | Remove name => simp [unsubscribed] at hr

/-- The error returned by a call that returns: nil when `os.Getwd` succeeds,
the error of `os.Getwd` when it fails on an active watcher and a list that is
not empty. -/
theorem addFiles_return (env : Env) (s s2 : State) (files : List File) (r : Option Error)
    (hM : 0 ≤ s.w.MaxWatchedFiles)
    (h : addFilesToFileWatcher env s files = some (s2, r)) :
    (∀ dirName, env.Getwd s.trace = Except.ok dirName → r = none) ∧
    (∀ err, s.w.Disabled = false → files ≠ [] →
      env.Getwd s.trace = Except.error err → r = some err) := by
  constructor
  · intro dirName hg
    by_cases hd : s.w.Disabled = true
    · rw [addFiles_disabled env s files hd] at h
      simp at h
      exact h.2.symm
    · have hd2 : s.w.Disabled = false := by simpa using hd
      by_cases hf : files = []
      · subst hf
        rw [addFiles_nil env s] at h
        simp at h
        exact h.2.symm
      · rw [addFiles_getwd_ok env s files dirName hd2 hf hM hg] at h
        cases hloop : forLoop env dirName { s with trace := s.trace ++ [Effect.Getwd] }
            (files.take (min s.w.MaxWatchedFiles files.length).toNat) with
        | none => rw [hloop] at h; simp at h
        | some t =>
          rw [hloop] at h
          simp at h
          exact h.2.symm
  · intro err hd hf hg
    rw [addFiles_getwd_error env s files err hd hf hg] at h
    simp at h
    exact h.2.symm

/-- The call reads its argument only through whether it is empty and through
its first `min(MaxWatchedFiles, len(files))` entries. -/
theorem addFiles_congr_files (env : Env) (s : State) (files files2 : List File)
    (hM : 0 ≤ s.w.MaxWatchedFiles) (he : files = [] ↔ files2 = [])
    (ht : files.take (min s.w.MaxWatchedFiles files.length).toNat =
      files2.take (min s.w.MaxWatchedFiles files2.length).toNat) :
    addFilesToFileWatcher env s files = addFilesToFileWatcher env s files2 := by
  by_cases hd : s.w.Disabled = true
  · rw [addFiles_disabled env s files hd, addFiles_disabled env s files2 hd]
  · have hd2 : s.w.Disabled = false := by simpa using hd
    by_cases hf : files = []
    · have hf2 := he.1 hf
      subst hf
      subst hf2
      rfl
    · have hf2 : files2 ≠ [] := fun h => hf (he.2 h)
      cases hg : env.Getwd s.trace with
      | error err =>
        rw [addFiles_getwd_error env s files err hd2 hf hg,
          addFiles_getwd_error env s files2 err hd2 hf2 hg]
      | ok dirName =>
        rw [addFiles_getwd_ok env s files dirName hd2 hf hM hg,
          addFiles_getwd_ok env s files2 dirName hd2 hf2 hM hg, ht]

/-- The first `min(m, len(files))` entries of the first `min(m, len(files))`
entries of a list are those entries. -/
theorem take_min_take (files : List File) (m : Int) (hm : 0 ≤ m) :
    (files.take (min m files.length).toNat).take
        (min m (files.take (min m files.length).toNat).length).toNat =
      files.take (min m files.length).toNat := by
  have h1 := min_le_right m files.length
  have h2 := min_nonneg m files.length hm (by omega)
  have hlen : (files.take (min m files.length).toNat).length = (min m files.length).toNat := by
    rw [List.length_take]
    omega
  rw [hlen]
  have h3 : min m ((min m files.length).toNat : Int) = min m files.length := by
    have h4 : ((min m files.length).toNat : Int) = min m files.length := by omega
    rw [h4]
    by_cases h : m < (files.length : Int)
    · have e : min m files.length = m := by
        unfold min
        rw [if_pos h]
      rw [e]
      unfold min
      split <;> rfl
    · have e : min m files.length = files.length := by
        unfold min
        rw [if_neg h]
      rw [e]
      exact e
  rw [h3]
  apply List.take_of_length_le
  rw [hlen]

/-- Two watchers with the same three fields are the same watcher. -/
theorem fileWatcher_eq (a b : fileWatcher)
    (h1 : a.WatchedFilenames = b.WatchedFilenames) (h2 : a.Disabled = b.Disabled)
    (h3 : a.MaxWatchedFiles = b.MaxWatchedFiles) : a = b := by
  cases a
  cases b
  simp at h1 h2 h3
  simp [h1, h2, h3]

/-- A call that makes no `Add` makes no `Remove` and leaves the watcher as it
was. -/
theorem addFiles_no_add (env : Env) (s s2 : State) (files : List File) (r : Option Error)
    (h : addFilesToFileWatcher env s files = some (s2, r))
    (hk : (min s.w.MaxWatchedFiles files.length).toNat = 0) :
    s2.w = s.w ∧ subscribed s2.trace = subscribed s.trace ∧
      unsubscribed s2.trace = unsubscribed s.trace := by
  obtain ⟨hdis, hmax, calls, ht, hr, _, _, hcnt, hrem⟩ := addFiles_calls env s s2 files r h
  have hsub : subscribed calls = [] := List.length_eq_zero.1 (by omega)
  have hunsub : unsubscribed calls = [] := List.length_eq_zero.1 (by rw [hsub] at hrem; simpa using hrem)
  refine ⟨fileWatcher_eq _ _ ?_ hdis hmax, ?_, ?_⟩
  · rw [hr, replay_quiet _ _ hsub hunsub]
  · rw [ht, subscribed_append, hsub]
    simp
  · rw [ht, unsubscribed_append, hunsub]
    simp

/-- A loop that makes no `Remove` keeps every watched name, and ends with
every candidate that is not deleted watched. -/
theorem forLoop_no_remove (env : Env) (dirName : String) (candidates : List File)
    (s s2 : State) (h : forLoop env dirName s candidates = some s2)
    (hq : unsubscribed s2.trace = unsubscribed s.trace) :
    (∀ name ∈ s.w.WatchedFilenames, name ∈ s2.w.WatchedFilenames) ∧
    ∀ file ∈ candidates,
      file.Deleted = true ∨ env.Join dirName file.Name ∈ s2.w.WatchedFilenames := by
  induction candidates generalizing s with
  | nil =>
    simp [forLoop] at h
    subst h
    exact ⟨fun _ hn => hn, by simp⟩
  | cons file rest ih =>
    unfold forLoop at h
    cases hb : loopBody env dirName s file with
    | none => simp [hb] at h
    | some s1 =>
      simp [hb] at h
      obtain ⟨calls, ht, _⟩ := forLoop_calls env dirName rest s1 s2 h
      have hlen := congrArg List.length hq
      rcases loopBody_shape env dirName s s1 file hb with ⟨rfl, hskip⟩ |
        ⟨_, _, _, logged, hlog, hw, ht1⟩ |
        ⟨_, _, _, oldest, tl, logged1, logged2, hlog1, hlog2, _, _, ht1⟩
      · obtain ⟨hkeep, hall⟩ := ih s1 h hq
        refine ⟨hkeep, ?_⟩
        intro f hf
        rcases List.mem_cons.1 hf with rfl | hf
        · rcases hskip with hdel | hmem
          · exact Or.inl hdel
          · exact Or.inr (hkeep _ hmem)
        · exact hall f hf
      · have hq1 : unsubscribed s2.trace = unsubscribed s1.trace := by
          rw [hq, ht1, unsubscribed_append]
          simp [unsubscribed, unsubscribed_onlyLogs _ hlog]
        obtain ⟨hkeep, hall⟩ := ih s1 h hq1
        have hw1 : s1.w.WatchedFilenames =
            s.w.WatchedFilenames ++ [env.Join dirName file.Name] := by rw [hw]
        refine ⟨?_, ?_⟩
        · intro name hname
          exact hkeep name (by rw [hw1]; exact List.mem_append_left _ hname)
        · intro f hf
          rcases List.mem_cons.1 hf with rfl | hf
          · exact Or.inr (hkeep _ (by rw [hw1]; simp))
          · exact hall f hf
      · exfalso
        rw [ht, ht1] at hlen
        simp [unsubscribed_append, unsubscribed] at hlen

/-! ## Bookkeeping does not depend on what the watcher answers -/

theorem popOldestFilename_bookkeeping (env1 env2 : Env) (s1 s2 : State) (hw : s1.w = s2.w) :
    (popOldestFilename env1 s1).map (fun t => t.w) =
      (popOldestFilename env2 s2).map (fun t => t.w) := by
  cases hL : s1.w.WatchedFilenames with
  | nil =>
    rw [popOldestFilename_nil env1 s1 hL, popOldestFilename_nil env2 s2 (hw ▸ hL)]
  | cons oldest rest =>
    obtain ⟨t1, _, hp1, hw1, _⟩ := popOldestFilename_spec env1 s1 oldest rest hL
    obtain ⟨t2, _, hp2, hw2, _⟩ := popOldestFilename_spec env2 s2 oldest rest (hw ▸ hL)
    rw [hp1, hp2]
    simp [hw1, hw2, hw]

theorem loopBody_bookkeeping (env1 env2 : Env) (dirName : String) (s1 s2 : State)
    (file : File) (hJ : env1.Join = env2.Join) (hw : s1.w = s2.w) :
    (loopBody env1 dirName s1 file).map (fun t => t.w) =
      (loopBody env2 dirName s2 file).map (fun t => t.w) := by
  have hp := popOldestFilename_bookkeeping env1 env2 s1 s2 hw
  obtain ⟨w1, tr1⟩ := s1
  obtain ⟨w2, tr2⟩ := s2
  simp only at hw
  subst hw
  unfold loopBody
  rw [← hJ]
  by_cases hd : file.Deleted = true
  · simp [hd]
  · by_cases hwt : watchingFilename w1 (env1.Join dirName file.Name) = true
    · simp [hd, hwt]
    · by_cases hl : w1.MaxWatchedFiles < (w1.WatchedFilenames.length : Int)
      · cases h1 : popOldestFilename env1 { w := w1, trace := tr1 } with
        | none =>
          cases h2 : popOldestFilename env2 { w := w1, trace := tr2 } with
          | none => simp [hd, hwt, hl, h1, h2]
          | some t2 => rw [h1, h2] at hp; simp at hp
        | some t1 =>
          cases h2 : popOldestFilename env2 { w := w1, trace := tr2 } with
          | none => rw [h1, h2] at hp; simp at hp
          | some t2 =>
            rw [h1, h2] at hp
            simp at hp
            simp [hd, hwt, hl, h1, h2, watchFilename, hp]
      · simp [hd, hwt, hl, watchFilename]

theorem forLoop_bookkeeping (env1 env2 : Env) (dirName : String) (candidates : List File)
    (s1 s2 : State) (hJ : env1.Join = env2.Join) (hw : s1.w = s2.w) :
    (forLoop env1 dirName s1 candidates).map (fun t => t.w) =
      (forLoop env2 dirName s2 candidates).map (fun t => t.w) := by
  induction candidates generalizing s1 s2 with
  | nil => simp [forLoop, hw]
  | cons file rest ih =>
    have hb := loopBody_bookkeeping env1 env2 dirName s1 s2 file hJ hw
    unfold forLoop
    cases h1 : loopBody env1 dirName s1 file with
    | none =>
      cases h2 : loopBody env2 dirName s2 file with
      | none => rfl
      | some t2 => rw [h1, h2] at hb; simp at hb
    | some t1 =>
      cases h2 : loopBody env2 dirName s2 file with
      | none => rw [h1, h2] at hb; simp at hb
      | some t2 =>
        rw [h1, h2] at hb
        simp at hb
        exact ih t1 t2 hb

/-- Two calls on the same watcher and the same tracked files, in worlds that
agree on `filepath.Join` and on what `os.Getwd` answers, end with the same
watcher and the same returned error, and panic together. -/
theorem addFiles_bookkeeping (env1 env2 : Env) (s1 s2 : State) (files : List File)
    (hJ : env1.Join = env2.Join) (hG : env1.Getwd s1.trace = env2.Getwd s2.trace)
    (hw : s1.w = s2.w) :
    (addFilesToFileWatcher env1 s1 files).map (fun r => (r.1.w, r.2)) =
      (addFilesToFileWatcher env2 s2 files).map (fun r => (r.1.w, r.2)) := by
  obtain ⟨w1, tr1⟩ := s1
  obtain ⟨w2, tr2⟩ := s2
  simp only at hw hG
  subst hw
  unfold addFilesToFileWatcher
  simp only
  rw [← hG]
  by_cases hd : w1.Disabled = true
  · simp [hd]
  · by_cases hf : files.length = 0
    · simp [hd, hf]
    · cases hg : env1.Getwd tr1 with
      | error err => simp [hd, hf]
      | ok dirName =>
        cases hs : sliceTo files (min w1.MaxWatchedFiles files.length) with
        | none => simp [hd, hf]
        | some candidates =>
          have hb := forLoop_bookkeeping env1 env2 dirName candidates
            { w := w1, trace := tr1 ++ [Effect.Getwd] }
            { w := w1, trace := tr2 ++ [Effect.Getwd] } hJ rfl
          cases h1 : forLoop env1 dirName { w := w1, trace := tr1 ++ [Effect.Getwd] }
              candidates with
          | none =>
            cases h2 : forLoop env2 dirName { w := w1, trace := tr2 ++ [Effect.Getwd] }
                candidates with
            | none => simp [hd, hf, h1, h2]
            | some t2 => rw [h1, h2] at hb; simp at hb
          | some t1 =>
            cases h2 : forLoop env2 dirName { w := w1, trace := tr2 ++ [Effect.Getwd] }
                candidates with
            | none => rw [h1, h2] at hb; simp at hb
            | some t2 =>
              rw [h1, h2] at hb
              simp at hb
              simp [hd, hf, h1, h2, hb]

/-! ## A loop that stays below capacity -/

theorem joinedPaths_cons_deleted (join : String → String → String) (dirName : String)
    (file : File) (rest : List File) (h : file.Deleted = true) :
    joinedPaths join dirName (file :: rest) = joinedPaths join dirName rest := by
  simp [joinedPaths, h]

theorem joinedPaths_cons_kept (join : String → String → String) (dirName : String)
    (file : File) (rest : List File) (h : file.Deleted = false) :
    joinedPaths join dirName (file :: rest) =
      join dirName file.Name :: joinedPaths join dirName rest := by
  simp [joinedPaths, h]

/-- When the watched names and the candidates together fit the capacity, the
loop returns without a `Remove`, and the names watched after it are the names
watched before followed by the joined paths of the candidates that are not
deleted, each put at the end unless already listed. -/
theorem forLoop_below_capacity (env : Env) (dirName : String) (candidates : List File)
    (s : State)
    (hcap : (s.w.WatchedFilenames.length : Int) + candidates.length ≤ s.w.MaxWatchedFiles) :
    ∃ s2, forLoop env dirName s candidates = some s2 ∧
      s2.w.WatchedFilenames =
        (joinedPaths env.Join dirName candidates).foldl addNew s.w.WatchedFilenames ∧
      unsubscribed s2.trace = unsubscribed s.trace := by
  induction candidates generalizing s with
  | nil => exact ⟨s, rfl, rfl, rfl⟩
  | cons file rest ih =>
    have hlen : ((file :: rest).length : Int) = (rest.length : Int) + 1 := by simp
    by_cases hd : file.Deleted = true
    · have hb := loopBody_skip env dirName s file (Or.inl hd)
      obtain ⟨s2, h2, hn, hu⟩ := ih s (by omega)
      refine ⟨s2, by simp [forLoop, hb, h2], ?_, hu⟩
      rw [joinedPaths_cons_deleted _ _ _ _ hd]
      exact hn
    · have hd2 : file.Deleted = false := by simpa using hd
      rw [joinedPaths_cons_kept _ _ _ _ hd2]
      by_cases hm : env.Join dirName file.Name ∈ s.w.WatchedFilenames
      · have hb := loopBody_skip env dirName s file (Or.inr hm)
        obtain ⟨s2, h2, hn, hu⟩ := ih s (by omega)
        refine ⟨s2, by simp [forLoop, hb, h2], ?_, hu⟩
        simp only [List.foldl_cons, addNew, if_pos hm]
        exact hn
      · have hM : 0 ≤ s.w.MaxWatchedFiles := by omega
        obtain ⟨s1, hb⟩ := loopBody_total env dirName s file hM
        rcases loopBody_shape env dirName s s1 file hb with ⟨_, hskip⟩ |
          ⟨_, _, _, logged, hlog, hw, ht1⟩ | ⟨_, _, hover, _⟩
        · rcases hskip with h1 | h1
          · exact absurd h1 hd
          · exact absurd h1 hm
        · have hw1 : s1.w.WatchedFilenames =
              s.w.WatchedFilenames ++ [env.Join dirName file.Name] := by rw [hw]
          have hmax : s1.w.MaxWatchedFiles = s.w.MaxWatchedFiles := by rw [hw]
          have hcap1 : (s1.w.WatchedFilenames.length : Int) + rest.length ≤
              s1.w.MaxWatchedFiles := by
            rw [hw1, hmax]
            simp
            omega
          obtain ⟨s2, h2, hn, hu⟩ := ih s1 hcap1
          refine ⟨s2, by simp [forLoop, hb, h2], ?_, ?_⟩
          · simp only [List.foldl_cons, addNew, if_neg hm]
            rw [hn, hw1]
          · rw [hu, ht1, unsubscribed_append]
            simp [unsubscribed, unsubscribed_onlyLogs _ hlog]
        · exfalso
          omega

/-! ## First in, first out -/

/-- The loop as a queue.  Split the watched names into the names `orig` that
were there when the call began and the names `added` since; if the candidates
left and the names added so far fit the capacity, the loop evicts a number `p`
of the names of `orig`, from the front and in order, never a name added
during the call, and puts the names it subscribes at the end. -/
theorem forLoop_fifo (env : Env) (dirName : String) (candidates : List File)
    (s s2 : State) (orig added : List String)
    (hs : s.w.WatchedFilenames = orig ++ added)
    (hcap : (candidates.length : Int) + added.length ≤ s.w.MaxWatchedFiles)
    (h : forLoop env dirName s candidates = some s2) :
    ∃ p adds, p ≤ orig.length ∧ p ≤ adds.length ∧
      s2.w.WatchedFilenames = orig.drop p ++ added ++ adds ∧
      subscribed s2.trace = subscribed s.trace ++ adds ∧
      unsubscribed s2.trace = unsubscribed s.trace ++ orig.take p := by
  induction candidates generalizing s orig added with
  | nil =>
    simp [forLoop] at h
    subst h
    exact ⟨0, [], by omega, by simp, by simp [hs], by simp, by simp⟩
  | cons file rest ih =>
    have hlen : ((file :: rest).length : Int) = (rest.length : Int) + 1 := by simp
    unfold forLoop at h
    cases hb : loopBody env dirName s file with
    | none => simp [hb] at h
    | some s1 =>
      simp [hb] at h
      rcases loopBody_shape env dirName s s1 file hb with ⟨rfl, _⟩ |
        ⟨_, _, _, logged, hlog, hw, ht1⟩ |
        ⟨_, _, hover, oldest, tl, logged1, logged2, hlog1, hlog2, hL, hw, ht1⟩
      · exact ih s1 orig added hs (by omega) h
      · have hw1 : s1.w.WatchedFilenames =
            orig ++ (added ++ [env.Join dirName file.Name]) := by
          rw [hw]
          simp [hs]
        have hmax : s1.w.MaxWatchedFiles = s.w.MaxWatchedFiles := by rw [hw]
        have hcap1 : (rest.length : Int) + (added ++ [env.Join dirName file.Name]).length ≤
            s1.w.MaxWatchedFiles := by
          rw [hmax]
          simp
          omega
        obtain ⟨p, adds, hp1, hp2, hn, hsub, hunsub⟩ := ih s1 orig _ hw1 hcap1 h
        refine ⟨p, env.Join dirName file.Name :: adds, hp1, by simp; omega, ?_, ?_, ?_⟩
        · rw [hn]
          simp
        · rw [hsub, ht1, subscribed_append]
          simp [subscribed, subscribed_onlyLogs _ hlog]
        · rw [hunsub, ht1, unsubscribed_append]
          simp [unsubscribed, unsubscribed_onlyLogs _ hlog]
      · have hlenL : (s.w.WatchedFilenames.length : Int) = orig.length + added.length := by
          rw [hs]
          simp
        obtain ⟨o, orig1, horig⟩ : ∃ o orig1, orig = o :: orig1 := by
          cases orig with
          | nil =>
            simp at hlenL
            omega
          | cons o orig1 => exact ⟨o, orig1, rfl⟩
        subst horig
        have hcons : oldest :: tl = o :: (orig1 ++ added) := by
          rw [← hL, hs]
          rfl
        have ho : oldest = o := (List.cons.inj hcons).1
        have htl : tl = orig1 ++ added := (List.cons.inj hcons).2
        subst ho
        have hw1 : s1.w.WatchedFilenames =
            orig1 ++ (added ++ [env.Join dirName file.Name]) := by
          rw [hw]
          simp [htl]
        have hmax : s1.w.MaxWatchedFiles = s.w.MaxWatchedFiles := by rw [hw]
        have hcap1 : (rest.length : Int) + (added ++ [env.Join dirName file.Name]).length ≤
            s1.w.MaxWatchedFiles := by
          rw [hmax]
          simp
          omega
        obtain ⟨p, adds, hp1, hp2, hn, hsub, hunsub⟩ := ih s1 orig1 _ hw1 hcap1 h
        refine ⟨p + 1, env.Join dirName file.Name :: adds, by simp; omega, by simp; omega,
          ?_, ?_, ?_⟩
        · rw [hn]
          simp
        · rw [hsub, ht1]
          simp [subscribed_append, subscribed, subscribed_onlyLogs _ hlog1,
            subscribed_onlyLogs _ hlog2]
        · rw [hunsub, ht1]
          simp [unsubscribed_append, unsubscribed, unsubscribed_onlyLogs _ hlog1,
            unsubscribed_onlyLogs _ hlog2]

/-- The call as a queue: with a capacity that is not negative it returns, having
evicted the first `p` of the names watched before, in order, and put the names
it subscribed at the end. -/
theorem addFiles_fifo (env : Env) (s : State) (files : List File)
    (hM : 0 ≤ s.w.MaxWatchedFiles) :
    ∃ s2 r p adds, addFilesToFileWatcher env s files = some (s2, r) ∧
      p ≤ s.w.WatchedFilenames.length ∧ p ≤ adds.length ∧
      s2.w.WatchedFilenames = s.w.WatchedFilenames.drop p ++ adds ∧
      subscribed s2.trace = subscribed s.trace ++ adds ∧
      unsubscribed s2.trace = unsubscribed s.trace ++ s.w.WatchedFilenames.take p := by
  have hidle : subscribed (s.trace ++ [Effect.Getwd]) = subscribed s.trace ∧
      unsubscribed (s.trace ++ [Effect.Getwd]) = unsubscribed s.trace := by
    simp [subscribed_append, unsubscribed_append, subscribed, unsubscribed]
  by_cases hd : s.w.Disabled = true
  · exact ⟨s, none, 0, [], addFiles_disabled env s files hd, by omega, by simp, by simp,
      by simp, by simp⟩
  · have hd2 : s.w.Disabled = false := by simpa using hd
    by_cases hf : files = []
    · subst hf
      exact ⟨s, none, 0, [], addFiles_nil env s, by omega, by simp, by simp, by simp, by simp⟩
    · cases hg : env.Getwd s.trace with
      | error err =>
        exact ⟨_, _, 0, [], addFiles_getwd_error env s files err hd2 hf hg, by omega,
          by simp, by simp, by simp [hidle.1], by simp [hidle.2]⟩
      | ok dirName =>
        obtain ⟨s2, h2⟩ := forLoop_total env dirName
          (files.take (min s.w.MaxWatchedFiles files.length).toNat)
          { s with trace := s.trace ++ [Effect.Getwd] } hM
        have hk1 := min_le_right s.w.MaxWatchedFiles files.length
        have hkM : min s.w.MaxWatchedFiles files.length ≤ s.w.MaxWatchedFiles := by
          unfold min
          split <;> omega
        have hlen := List.length_take_le (min s.w.MaxWatchedFiles files.length).toNat files
        have hcap : (((files.take (min s.w.MaxWatchedFiles files.length).toNat).length : Nat)
            : Int) + (([] : List String).length : Nat) ≤
            ({ s with trace := s.trace ++ [Effect.Getwd] } : State).w.MaxWatchedFiles := by
          show _ ≤ s.w.MaxWatchedFiles
          simp only [List.length_nil]
          omega
        obtain ⟨p, adds, hp1, hp2, hn, hsub, hunsub⟩ := forLoop_fifo env dirName _
          { s with trace := s.trace ++ [Effect.Getwd] } s2 s.w.WatchedFilenames []
          (by simp) hcap h2
        refine ⟨s2, none, p, adds, ?_, hp1, hp2, by simpa using hn, ?_, ?_⟩
        · rw [addFiles_getwd_ok env s files dirName hd2 hf hM hg, h2]
          rfl
        · rw [hsub]
          exact congrArg (fun l => l ++ adds) hidle.1
        · rw [hunsub]
          exact congrArg (fun l => l ++ s.w.WatchedFilenames.take p) hidle.2

/-! ## Construction and the event loop -/

/-- With a capacity that is not negative `NewFileWatcher` returns: a disabled
watcher when `fsnotify.NewWatcher` fails, an active and empty one otherwise. -/
theorem NewFileWatcher_spec (env : Env) (trace : List Effect) (maxWatchedFiles : Int)
    (hM : 0 ≤ maxWatchedFiles) :
    ∃ s, NewFileWatcher env trace maxWatchedFiles = some s ∧
      (∀ err, env.NewWatcher trace = some err →
        s.w = { WatchedFilenames := [], Disabled := true, MaxWatchedFiles := 0 }) ∧
      (env.NewWatcher trace = none →
        s.w = { WatchedFilenames := [], Disabled := false,
                MaxWatchedFiles := maxWatchedFiles }) := by
  unfold NewFileWatcher
  cases hn : env.NewWatcher trace with
  | some err =>
    refine ⟨_, rfl, fun _ _ => rfl, ?_⟩
    intro h
    cases h
  | none =>
    have hneg : ¬ maxWatchedFiles < 0 := by omega
    refine ⟨{ w := { WatchedFilenames := [], Disabled := false,
                     MaxWatchedFiles := maxWatchedFiles },
              trace := trace ++ [Effect.NewWatcher] }, ?_, ?_, fun _ => rfl⟩
    · simp [hneg]
    · intro err h
      cases h

/-- On a disabled watcher any number of calls leaves the state as it is. -/
theorem reconcileAll_disabled (env : Env) (s : State) (lists : List (List File))
    (h : s.w.Disabled = true) : reconcileAll env s lists = some s := by
  induction lists with
  | nil => rfl
  | cons files rest ih =>
    unfold reconcileAll
    rw [addFiles_disabled env s files h]
    exact ih

/-! ## The length the code keeps -/

/-- An iteration keeps the length within `MaxWatchedFiles + 1`. -/
theorem loopBody_bound (env : Env) (dirName : String) (s s1 : State) (file : File)
    (h : loopBody env dirName s file = some s1)
    (hlen : (s.w.WatchedFilenames.length : Int) ≤ s.w.MaxWatchedFiles + 1) :
    (s1.w.WatchedFilenames.length : Int) ≤ s1.w.MaxWatchedFiles + 1 := by
  rcases loopBody_shape env dirName s s1 file h with ⟨rfl, _⟩ |
    ⟨_, _, hfit, logged, _, hw, _⟩ |
    ⟨_, _, _, oldest, tl, _, _, _, _, hL, hw, _⟩
  · exact hlen
  · rw [hw]
    simp
    omega
  · rw [hL] at hlen
    rw [hw]
    simp at hlen ⊢
    omega

/-- The loop returns and keeps the length within `MaxWatchedFiles + 1`. -/
theorem forLoop_bound (env : Env) (dirName : String) (candidates : List File) (s : State)
    (hM : 0 ≤ s.w.MaxWatchedFiles)
    (hlen : (s.w.WatchedFilenames.length : Int) ≤ s.w.MaxWatchedFiles + 1) :
    ∃ s2, forLoop env dirName s candidates = some s2 ∧
      (s2.w.WatchedFilenames.length : Int) ≤ s2.w.MaxWatchedFiles + 1 := by
  obtain ⟨s2, h2⟩ := forLoop_total env dirName candidates s hM
  refine ⟨s2, h2, ?_⟩
  exact forLoop_inv env dirName
    (fun t => (t.w.WatchedFilenames.length : Int) ≤ t.w.MaxWatchedFiles + 1) candidates
    (fun t f t2 _ hi hb => loopBody_bound env dirName t t2 f hb hi) s s2 hlen h2

/-- The call returns and keeps the length within `MaxWatchedFiles + 1`. -/
theorem addFiles_bound (env : Env) (s : State) (files : List File)
    (hM : 0 ≤ s.w.MaxWatchedFiles)
    (hlen : (s.w.WatchedFilenames.length : Int) ≤ s.w.MaxWatchedFiles + 1) :
    ∃ s2 r, addFilesToFileWatcher env s files = some (s2, r) ∧
      s2.w.MaxWatchedFiles = s.w.MaxWatchedFiles ∧
      (s2.w.WatchedFilenames.length : Int) ≤ s2.w.MaxWatchedFiles + 1 := by
  by_cases hd : s.w.Disabled = true
  · exact ⟨s, none, addFiles_disabled env s files hd, rfl, hlen⟩
  · have hd2 : s.w.Disabled = false := by simpa using hd
    by_cases hf : files = []
    · subst hf
      exact ⟨s, none, addFiles_nil env s, rfl, hlen⟩
    · cases hg : env.Getwd s.trace with
      | error err =>
        exact ⟨_, _, addFiles_getwd_error env s files err hd2 hf hg, rfl, hlen⟩
      | ok dirName =>
        obtain ⟨s2, h2, hb⟩ := forLoop_bound env dirName
          (files.take (min s.w.MaxWatchedFiles files.length).toNat)
          { s with trace := s.trace ++ [Effect.Getwd] } hM hlen
        refine ⟨s2, none, ?_, (forLoop_frame env dirName _ _ _ h2).2, hb⟩
        rw [addFiles_getwd_ok env s files dirName hd2 hf hM hg, h2]
        rfl

/-- Any number of calls returns and keeps the length within
`MaxWatchedFiles + 1`. -/
theorem reconcileAll_bound (env : Env) (s : State) (lists : List (List File))
    (hM : 0 ≤ s.w.MaxWatchedFiles)
    (hlen : (s.w.WatchedFilenames.length : Int) ≤ s.w.MaxWatchedFiles + 1) :
    ∃ s2, reconcileAll env s lists = some s2 ∧
      (s2.w.WatchedFilenames.length : Int) ≤ s2.w.MaxWatchedFiles + 1 := by
  induction lists generalizing s with
  | nil => exact ⟨s, rfl, hlen⟩
  | cons files rest ih =>
    obtain ⟨s1, r, h1, hmax, hb⟩ := addFiles_bound env s files hM hlen
    obtain ⟨s2, h2, hb2⟩ := ih s1 (by rw [hmax]; exact hM) hb
    exact ⟨s2, by simp [reconcileAll, h1, h2], hb2⟩

/-! ## Evictions come with a subscription -/

theorem watcherCalls_append (a b : List Effect) :
    watcherCalls (a ++ b) = watcherCalls a ++ watcherCalls b := by
  induction a with
  | nil => simp [watcherCalls]
  | cons e es ih => cases e <;> simp [watcherCalls, ih]

theorem watcherCalls_onlyLogs (trace : List Effect) (h : onlyLogs trace) :
    watcherCalls trace = [] := by
  induction trace with
  | nil => rfl
  | cons e es ih =>
    obtain ⟨err, rfl⟩ := h e (by simp)
    simpa [watcherCalls] using ih (fun x hx => h x (by simp [hx]))

theorem removeThenAdd_nil : removeThenAdd [] := by
  intro before oldest after h
  cases before <;> simp at h

theorem removeThenAdd_add (name : String) (calls : List Effect) (h : removeThenAdd calls) :
    removeThenAdd (Effect.Add name :: calls) := by
  intro before oldest after heq
  cases before with
  | nil => simp at heq
  | cons b bs =>
    simp at heq
    exact h bs oldest after heq.2

theorem removeThenAdd_pair (oldest name : String) (calls : List Effect)
    (h : removeThenAdd calls) :
    removeThenAdd (Effect.Remove oldest :: Effect.Add name :: calls) := by
  intro before o after heq
  cases before with
  | nil =>
    simp at heq
    exact ⟨name, calls, heq.2.symm⟩
  | cons b bs =>
    cases bs with
    | nil => simp at heq
    | cons b2 bs2 =>
      simp at heq
      exact h bs2 o after heq.2.2

/-- Replaying calls adds at most one name for each `Add`. -/
theorem replay_length_le (names : List String) (calls : List Effect) :
    (replay names calls).length ≤ names.length + (subscribed calls).length := by
  induction calls generalizing names with
  | nil => simp [replay, subscribed]
  | cons e es ih =>
    cases e with
    | NewWatcher => simpa [replay, subscribed] using ih names
    | Getwd => simpa [replay, subscribed] using ih names
    | LogError err => simpa [replay, subscribed] using ih names
    | Add name =>
      have h := ih (names ++ [name])
      simp [replay, subscribed] at h ⊢
      omega
    | Remove name =>
      have h := ih names.tail
      simp [replay, subscribed] at h ⊢
      omega

/-- Replaying calls takes away at most one name for each `Remove`. -/
theorem replay_length_ge (names : List String) (calls : List Effect) :
    names.length + (subscribed calls).length ≤
      (replay names calls).length + (unsubscribed calls).length := by
  induction calls generalizing names with
  | nil => simp [replay, subscribed, unsubscribed]
  | cons e es ih =>
    cases e with
    | NewWatcher => simpa [replay, subscribed, unsubscribed] using ih names
    | Getwd => simpa [replay, subscribed, unsubscribed] using ih names
    | LogError err => simpa [replay, subscribed, unsubscribed] using ih names
    | Add name =>
      have h := ih (names ++ [name])
      simp [replay, subscribed, unsubscribed] at h ⊢
      omega
    | Remove name =>
      have h := ih names.tail
      simp [replay, subscribed, unsubscribed] at h ⊢
      omega

/-- In the calls of a loop every `Remove` is immediately followed by an `Add`. -/
theorem forLoop_removeThenAdd (env : Env) (dirName : String) (candidates : List File)
    (s s2 : State) (h : forLoop env dirName s candidates = some s2)
    (calls : List Effect) (ht : s2.trace = s.trace ++ calls) :
    removeThenAdd (watcherCalls calls) := by
  induction candidates generalizing s calls with
  | nil =>
    simp [forLoop] at h
    subst h
    have hc : calls = [] := by
      have h2 : s.trace ++ [] = s.trace ++ calls := by simpa using ht
      exact (List.append_cancel_left h2).symm
    subst hc
    exact removeThenAdd_nil
  | cons file rest ih =>
    unfold forLoop at h
    cases hb : loopBody env dirName s file with
    | none => simp [hb] at h
    | some s1 =>
      simp [hb] at h
      obtain ⟨calls1, ht1, _⟩ := forLoop_calls env dirName rest s1 s2 h
      have hrest := ih s1 h calls1 ht1
      rcases loopBody_shape env dirName s s1 file hb with ⟨rfl, _⟩ |
        ⟨_, _, _, logged, hlog, _, hts⟩ |
        ⟨_, _, _, oldest, tl, logged1, logged2, hlog1, hlog2, _, _, hts⟩
      · exact ih s1 h calls ht
      · have hc : calls = Effect.Add (env.Join dirName file.Name) :: logged ++ calls1 := by
          refine @List.append_cancel_left _ s.trace _ _ ?_
          rw [← ht, ht1, hts]
          simp
        have hwc : watcherCalls calls =
            Effect.Add (env.Join dirName file.Name) :: watcherCalls calls1 := by
          have hsplit : calls =
              [Effect.Add (env.Join dirName file.Name)] ++ (logged ++ calls1) := by
            rw [hc]
            simp
          rw [hsplit, watcherCalls_append, watcherCalls_append, watcherCalls_onlyLogs _ hlog]
          rfl
        rw [hwc]
        exact removeThenAdd_add _ _ hrest
      · have hc : calls = Effect.Remove oldest :: logged1 ++
            Effect.Add (env.Join dirName file.Name) :: logged2 ++ calls1 := by
          refine @List.append_cancel_left _ s.trace _ _ ?_
          rw [← ht, ht1, hts]
          simp
        have hwc : watcherCalls calls = Effect.Remove oldest ::
            Effect.Add (env.Join dirName file.Name) :: watcherCalls calls1 := by
          have hsplit : calls = [Effect.Remove oldest] ++ (logged1 ++
              ([Effect.Add (env.Join dirName file.Name)] ++ (logged2 ++ calls1))) := by
            rw [hc]
            simp
          rw [hsplit, watcherCalls_append, watcherCalls_append, watcherCalls_append,
            watcherCalls_append, watcherCalls_onlyLogs _ hlog1, watcherCalls_onlyLogs _ hlog2]
          rfl
        rw [hwc]
        exact removeThenAdd_pair _ _ _ hrest

/-- In the calls of `addFilesToFileWatcher` every `Remove` is immediately
followed by an `Add`. -/
theorem addFiles_removeThenAdd (env : Env) (s s2 : State) (files : List File)
    (r : Option Error) (hM : 0 ≤ s.w.MaxWatchedFiles)
    (h : addFilesToFileWatcher env s files = some (s2, r))
    (calls : List Effect) (ht : s2.trace = s.trace ++ calls) :
    removeThenAdd (watcherCalls calls) := by
  have hnil : s2 = s → removeThenAdd (watcherCalls calls) := by
    intro he
    subst he
    have hc : calls = [] := by
      have h2 : s2.trace ++ [] = s2.trace ++ calls := by simpa using ht
      exact (List.append_cancel_left h2).symm
    subst hc
    exact removeThenAdd_nil
  by_cases hd : s.w.Disabled = true
  · rw [addFiles_disabled env s files hd] at h
    simp at h
    exact hnil h.1.symm
  · have hd2 : s.w.Disabled = false := by simpa using hd
    by_cases hf : files = []
    · subst hf
      rw [addFiles_nil env s] at h
      simp at h
      exact hnil h.1.symm
    · cases hg : env.Getwd s.trace with
      | error err =>
        rw [addFiles_getwd_error env s files err hd2 hf hg] at h
        simp at h
        obtain ⟨h1, _⟩ := h
        subst h1
        have hc : calls = [Effect.Getwd] := by
          refine @List.append_cancel_left _ s.trace _ _ ?_
          exact ht.symm
        subst hc
        exact removeThenAdd_nil
      | ok dirName =>
        rw [addFiles_getwd_ok env s files dirName hd2 hf hM hg] at h
        cases hloop : forLoop env dirName { s with trace := s.trace ++ [Effect.Getwd] }
            (files.take (min s.w.MaxWatchedFiles files.length).toNat) with
        | none => rw [hloop] at h; simp at h
        | some t =>
          rw [hloop] at h
          simp at h
          obtain ⟨h1, _⟩ := h
          subst h1
          obtain ⟨calls1, ht1, _⟩ := forLoop_calls env dirName _ _ _ hloop
          have hrest := forLoop_removeThenAdd env dirName _ _ _ hloop calls1 ht1
          have hc : calls = Effect.Getwd :: calls1 := by
            refine @List.append_cancel_left _ s.trace _ _ ?_
            rw [← ht, ht1]
            simp
          rw [hc]
          exact hrest

/-! ## The claims -/

/-- C1 (capacity invariant `len(WatchedFilenames) <= MaxWatchedFiles` after
every call, from a newly constructed watcher): the code breaks it.  With
`MaxWatchedFiles = 1`, a new watcher reconciled with `[a]` and then with `[b]`
ends up watching both `a` and `b`: the test before the eviction is
`len > MaxWatchedFiles`, so a full list is not evicted from. -/
theorem C1_capacity_exceeded_after_second_call :
    ∃ s0 s1 s2, NewFileWatcher envOk [] 1 = some s0 ∧
      s0.w = { WatchedFilenames := [], Disabled := false, MaxWatchedFiles := 1 } ∧
      addFilesToFileWatcher envOk s0 [tracked "a"] = some (s1, none) ∧
      s1.w.WatchedFilenames = ["/repo/a"] ∧
      addFilesToFileWatcher envOk s1 [tracked "b"] = some (s2, none) ∧
      s2.w.WatchedFilenames = ["/repo/a", "/repo/b"] ∧
      s2.w.MaxWatchedFiles = 1 ∧
      s2.w.MaxWatchedFiles < (s2.w.WatchedFilenames.length : Int) := by
  refine ⟨{ w := { WatchedFilenames := [], Disabled := false, MaxWatchedFiles := 1 },
            trace := [Effect.NewWatcher] },
          { w := { WatchedFilenames := ["/repo/a"], Disabled := false, MaxWatchedFiles := 1 },
            trace := [Effect.NewWatcher, Effect.Getwd, Effect.Add "/repo/a"] },
          { w := { WatchedFilenames := ["/repo/a", "/repo/b"], Disabled := false,
                   MaxWatchedFiles := 1 },
            trace := [Effect.NewWatcher, Effect.Getwd, Effect.Add "/repo/a", Effect.Getwd,
              Effect.Add "/repo/b"] },
          ?_, rfl, ?_, rfl, ?_, rfl, rfl, ?_⟩
  · decide
  · decide
  · decide
  · decide

/-- C2 (eviction when the list holds exactly `MaxWatchedFiles` paths): the code
does not evict there.  With capacity 2 and watched names `[a.txt, b.txt]`,
reconciling `[c.txt]` makes no `Remove` call and gives `[a.txt, b.txt, c.txt]`,
not `[b.txt, c.txt]`; and a new watcher of capacity 2 given `A`, `B`, `C` one
at a time ends as `[A, B, C]`, not `[B, C]`. -/
theorem C2_full_list_is_not_evicted_from :
    addFilesToFileWatcher envOk (active 2 ["/repo/a.txt", "/repo/b.txt"]) [tracked "c.txt"] =
      some ({ w := { WatchedFilenames := ["/repo/a.txt", "/repo/b.txt", "/repo/c.txt"],
                     Disabled := false, MaxWatchedFiles := 2 },
              trace := [Effect.Getwd, Effect.Add "/repo/c.txt"] }, none) ∧
    (reconcileAll envOk (active 2 []) [[tracked "A"], [tracked "B"], [tracked "C"]]).map
      (fun s => s.w.WatchedFilenames) = some ["/repo/A", "/repo/B", "/repo/C"] := by
  constructor
  · decide
  · decide

/-- C3 as stated fails.  A new watcher of capacity 2 reconciled with `[a, b]`
and then `[c]` watches `[a, b, c]`.  Reconciling `[a, d]` skips `a`, which is
watched, then evicts it to make room for `d`.  Reconciling `[a, d]` again, with
the same working directory, therefore subscribes `a` once more and changes
`WatchedFilenames`. -/
theorem C3_second_call_subscribes_again :
    ∃ s0 s1 s2 s3, NewFileWatcher envOk [] 2 = some s0 ∧
      reconcileAll envOk s0 [[tracked "a", tracked "b"], [tracked "c"]] = some s1 ∧
      s1.w.WatchedFilenames = ["/repo/a", "/repo/b", "/repo/c"] ∧
      addFilesToFileWatcher envOk s1 [tracked "a", tracked "d"] = some (s2, none) ∧
      s2.w.WatchedFilenames = ["/repo/b", "/repo/c", "/repo/d"] ∧
      addFilesToFileWatcher envOk s2 [tracked "a", tracked "d"] = some (s3, none) ∧
      s3.w.WatchedFilenames = ["/repo/c", "/repo/d", "/repo/a"] ∧
      s3.trace = s2.trace ++ [Effect.Getwd, Effect.Remove "/repo/b", Effect.Add "/repo/a"] ∧
      envOk.Getwd s2.trace = envOk.Getwd s1.trace := by
  refine ⟨{ w := { WatchedFilenames := [], Disabled := false, MaxWatchedFiles := 2 },
            trace := [Effect.NewWatcher] },
          { w := { WatchedFilenames := ["/repo/a", "/repo/b", "/repo/c"], Disabled := false,
                   MaxWatchedFiles := 2 },
            trace := [Effect.NewWatcher, Effect.Getwd, Effect.Add "/repo/a",
              Effect.Add "/repo/b", Effect.Getwd, Effect.Add "/repo/c"] },
          { w := { WatchedFilenames := ["/repo/b", "/repo/c", "/repo/d"], Disabled := false,
                   MaxWatchedFiles := 2 },
            trace := [Effect.NewWatcher, Effect.Getwd, Effect.Add "/repo/a",
              Effect.Add "/repo/b", Effect.Getwd, Effect.Add "/repo/c", Effect.Getwd,
              Effect.Remove "/repo/a", Effect.Add "/repo/d"] },
          { w := { WatchedFilenames := ["/repo/c", "/repo/d", "/repo/a"], Disabled := false,
                   MaxWatchedFiles := 2 },
            trace := [Effect.NewWatcher, Effect.Getwd, Effect.Add "/repo/a",
              Effect.Add "/repo/b", Effect.Getwd, Effect.Add "/repo/c", Effect.Getwd,
              Effect.Remove "/repo/a", Effect.Add "/repo/d", Effect.Getwd,
              Effect.Remove "/repo/b", Effect.Add "/repo/a"] },
          ?_, ?_, rfl, ?_, rfl, ?_, rfl, ?_, rfl⟩
  · decide
  · decide
  · decide
  · decide
  · decide

/-- C3, amended: when a call of `addFilesToFileWatcher` has returned without
making a `Remove` call (nothing was evicted), a second call with the same
tracked files and the same answer of `os.Getwd` returns the same error, makes
no `Add` and no `Remove` call and leaves the watcher, so `WatchedFilenames`,
exactly as the first call left it. -/
theorem C3_second_call_idle_without_eviction (env : Env) (s s1 : State)
    (files : List File) (r1 : Option Error)
    (h1 : addFilesToFileWatcher env s files = some (s1, r1))
    (hq : unsubscribed s1.trace = unsubscribed s.trace)
    (hwd : env.Getwd s1.trace = env.Getwd s.trace) :
    ∃ s2, addFilesToFileWatcher env s1 files = some (s2, r1) ∧
      s2.w = s1.w ∧
      subscribed s2.trace = subscribed s1.trace ∧
      unsubscribed s2.trace = unsubscribed s1.trace := by
  by_cases hd : s.w.Disabled = true
  · rw [addFiles_disabled env s files hd] at h1
    simp at h1
    obtain ⟨rfl, rfl⟩ := h1
    exact ⟨s, addFiles_disabled env s files hd, rfl, rfl, rfl⟩
  · have hd2 : s.w.Disabled = false := by simpa using hd
    by_cases hf : files = []
    · subst hf
      rw [addFiles_nil env s] at h1
      simp at h1
      obtain ⟨rfl, rfl⟩ := h1
      exact ⟨s, addFiles_nil env s, rfl, rfl, rfl⟩
    · have hidle : ∀ t : State,
          subscribed (t.trace ++ [Effect.Getwd]) = subscribed t.trace ∧
          unsubscribed (t.trace ++ [Effect.Getwd]) = unsubscribed t.trace := by
        intro t
        simp [subscribed_append, unsubscribed_append, subscribed, unsubscribed]
      cases hg : env.Getwd s.trace with
      | error err =>
        rw [addFiles_getwd_error env s files err hd2 hf hg] at h1
        simp at h1
        obtain ⟨rfl, rfl⟩ := h1
        rw [hg] at hwd
        exact ⟨_, addFiles_getwd_error env _ files err hd2 hf hwd, rfl, (hidle _).1,
          (hidle _).2⟩
      | ok dirName =>
        have hl : files.length ≠ 0 := fun h0 => hf (List.length_eq_zero.1 h0)
        by_cases hM : 0 ≤ s.w.MaxWatchedFiles
        · rw [addFiles_getwd_ok env s files dirName hd2 hf hM hg] at h1
          cases hloop : forLoop env dirName { s with trace := s.trace ++ [Effect.Getwd] }
              (files.take (min s.w.MaxWatchedFiles files.length).toNat) with
          | none => rw [hloop] at h1; simp at h1
          | some t =>
            rw [hloop] at h1
            simp at h1
            obtain ⟨rfl, rfl⟩ := h1
            obtain ⟨hfd, hfm⟩ := forLoop_frame env dirName _ _ _ hloop
            have hq2 : unsubscribed t.trace =
                unsubscribed ({ s with trace := s.trace ++ [Effect.Getwd] } : State).trace := by
              rw [hq]
              exact (hidle s).2.symm
            obtain ⟨_, hall⟩ := forLoop_no_remove env dirName _ _ _ hloop hq2
            have hd3 : t.w.Disabled = false := by rw [hfd]; exact hd2
            have hfm2 : t.w.MaxWatchedFiles = s.w.MaxWatchedFiles := hfm
            have hM3 : 0 ≤ t.w.MaxWatchedFiles := by rw [hfm2]; exact hM
            rw [hg] at hwd
            refine ⟨{ t with trace := t.trace ++ [Effect.Getwd] }, ?_, rfl, (hidle t).1,
              (hidle t).2⟩
            rw [addFiles_getwd_ok env t files dirName hd3 hf hM3 hwd, hfm2,
              forLoop_skip env dirName _ { t with trace := t.trace ++ [Effect.Getwd] } hall]
            rfl
        · have hs := sliceTo_min_neg files s.w.MaxWatchedFiles (by omega)
          simp [addFilesToFileWatcher, hd2, hl, hg, hs] at h1

/-- C3 at a concrete input: a watcher below capacity, one file already watched
and one new file. -/
theorem C3_second_call_idle_without_eviction_witness :
    addFilesToFileWatcher envOk (active 2 ["/repo/a"]) [tracked "a", tracked "b"] =
      some ({ w := { WatchedFilenames := ["/repo/a", "/repo/b"], Disabled := false,
                     MaxWatchedFiles := 2 },
              trace := [Effect.Getwd, Effect.Add "/repo/b"] }, none) ∧
    ∃ s2, addFilesToFileWatcher envOk
        { w := { WatchedFilenames := ["/repo/a", "/repo/b"], Disabled := false,
                 MaxWatchedFiles := 2 },
          trace := [Effect.Getwd, Effect.Add "/repo/b"] }
        [tracked "a", tracked "b"] = some (s2, none) ∧
      s2.w = { WatchedFilenames := ["/repo/a", "/repo/b"], Disabled := false,
               MaxWatchedFiles := 2 } ∧
      subscribed s2.trace = subscribed [Effect.Getwd, Effect.Add "/repo/b"] ∧
      unsubscribed s2.trace = unsubscribed [Effect.Getwd, Effect.Add "/repo/b"] :=
  ⟨by decide,
    C3_second_call_idle_without_eviction envOk (active 2 ["/repo/a"])
      { w := { WatchedFilenames := ["/repo/a", "/repo/b"], Disabled := false,
               MaxWatchedFiles := 2 },
        trace := [Effect.Getwd, Effect.Add "/repo/b"] }
      [tracked "a", tracked "b"] none (by decide) (by decide) rfl⟩

/-- C4: on a watcher whose `WatchedFilenames` has no repeated path (capacity
not negative, any list of tracked files, repeats allowed) the call returns
with a `WatchedFilenames` that has no repeated path.  The calls it makes,
replayed in order on the names watched before, give the names watched after,
and every name passed to `Add` is absent from the watched names as they stand
at that point of the replay. -/
theorem C4_no_duplicate_paths (env : Env) (s : State) (files : List File)
    (hM : 0 ≤ s.w.MaxWatchedFiles) (hnd : s.w.WatchedFilenames.Nodup) :
    ∃ s2 r calls, addFilesToFileWatcher env s files = some (s2, r) ∧
      s2.w.WatchedFilenames.Nodup ∧
      s2.trace = s.trace ++ calls ∧
      s2.w.WatchedFilenames = replay s.w.WatchedFilenames calls ∧
      ∀ before name after, calls = before ++ Effect.Add name :: after →
        name ∉ replay s.w.WatchedFilenames before := by
  obtain ⟨s2, r, h⟩ := addFiles_total env s files hM
  obtain ⟨_, _, calls, ht, hr, hf, _⟩ := addFiles_calls env s s2 files r h
  refine ⟨s2, r, calls, h, ?_, ht, hr, ?_⟩
  · rw [hr]
    exact replay_nodup _ _ hnd hf
  · intro before name after hs
    exact addsFresh_split _ calls before after name hf hs

/-- C4 at a concrete input: a tracked-file list that repeats a name. -/
theorem C4_no_duplicate_paths_witness :
    (0 : Int) ≤ (active 2 ["/repo/a"]).w.MaxWatchedFiles ∧
    (active 2 ["/repo/a"]).w.WatchedFilenames.Nodup ∧
    ∃ s2 r calls,
      addFilesToFileWatcher envOk (active 2 ["/repo/a"]) [tracked "b", tracked "b"] =
        some (s2, r) ∧
      s2.w.WatchedFilenames.Nodup ∧
      s2.trace = (active 2 ["/repo/a"]).trace ++ calls ∧
      s2.w.WatchedFilenames = replay (active 2 ["/repo/a"]).w.WatchedFilenames calls ∧
      ∀ before name after, calls = before ++ Effect.Add name :: after →
        name ∉ replay (active 2 ["/repo/a"]).w.WatchedFilenames before :=
  ⟨by decide, by decide,
    C4_no_duplicate_paths envOk (active 2 ["/repo/a"]) [tracked "b", tracked "b"]
      (by decide) (by decide)⟩

/-- C5 as stated fails: with `MaxWatchedFiles = 0`, one tracked file and
`os.Getwd` failing, the call on the list returns the error of `os.Getwd`, while
the call on its first `min(0, 1) = 0` entries, the empty list, returns nil
without calling `os.Getwd`. -/
theorem C5_return_value_differs_at_capacity_zero :
    (active 0 []).w.Disabled = false ∧
    addFilesToFileWatcher envNoWd (active 0 []) [tracked "a"] =
      some ({ w := (active 0 []).w, trace := [Effect.Getwd] },
        some "getwd: no such file or directory") ∧
    addFilesToFileWatcher envNoWd (active 0 [])
      ([tracked "a"].take (min (active 0 []).w.MaxWatchedFiles
        ([tracked "a"] : List File).length).toNat) = some (active 0 [], none) := by
  refine ⟨rfl, ?_, ?_⟩
  · decide
  · decide

/-- C5, amended: with a capacity that is not negative, the call on `files` and
the call on its first `min(MaxWatchedFiles, len(files))` entries both return,
with the same watcher and the same `Add` and `Remove` calls; the returned
errors are the same too, except when that minimum is 0 on an active watcher and
a list that is not empty while `os.Getwd` fails: the call on `files` then
returns the error and the call on the empty list returns nil.  The call makes
at most `min(MaxWatchedFiles, len(files))` calls of `Add`, and a list of the
same length with the same first `min(MaxWatchedFiles, len(files))` entries
gives the same result. -/
theorem C5_candidate_cap (env : Env) (s : State) (files : List File)
    (hM : 0 ≤ s.w.MaxWatchedFiles) :
    ∃ s2 r s3 r3 calls,
      addFilesToFileWatcher env s files = some (s2, r) ∧
      addFilesToFileWatcher env s
        (files.take (min s.w.MaxWatchedFiles files.length).toNat) = some (s3, r3) ∧
      s2.w = s3.w ∧
      subscribed s2.trace = subscribed s3.trace ∧
      unsubscribed s2.trace = unsubscribed s3.trace ∧
      (r = r3 ∨
        ((min s.w.MaxWatchedFiles files.length).toNat = 0 ∧ s.w.Disabled = false ∧
          files ≠ [] ∧ r3 = none ∧
          ∃ err, env.Getwd s.trace = Except.error err ∧ r = some err)) ∧
      s2.trace = s.trace ++ calls ∧
      (subscribed calls).length ≤ (min s.w.MaxWatchedFiles files.length).toNat ∧
      ∀ files2 : List File, files2.length = files.length →
        files2.take (min s.w.MaxWatchedFiles files.length).toNat =
          files.take (min s.w.MaxWatchedFiles files.length).toNat →
        addFilesToFileWatcher env s files2 = addFilesToFileWatcher env s files := by
  obtain ⟨s2, r, h⟩ := addFiles_total env s files hM
  obtain ⟨_, _, calls, ht, _, _, _, hcnt, _⟩ := addFiles_calls env s s2 files r h
  have hlast : ∀ files2 : List File, files2.length = files.length →
      files2.take (min s.w.MaxWatchedFiles files.length).toNat =
        files.take (min s.w.MaxWatchedFiles files.length).toNat →
      addFilesToFileWatcher env s files2 = addFilesToFileWatcher env s files := by
    intro files2 hlen htake
    apply addFiles_congr_files env s files2 files hM
    · rw [← List.length_eq_zero, ← List.length_eq_zero (l := files), hlen]
    · rw [hlen]
      exact htake
  by_cases hk : (min s.w.MaxWatchedFiles files.length).toNat = 0
  · rw [hk]
    obtain ⟨hw, hsub, hunsub⟩ := addFiles_no_add env s s2 files r h hk
    refine ⟨s2, r, s, none, calls, h, addFiles_nil env s, hw, hsub, hunsub, ?_, ht,
      by omega, by rw [hk] at hlast; exact hlast⟩
    obtain ⟨hok, herr⟩ := addFiles_return env s s2 files r hM h
    by_cases hd : s.w.Disabled = true
    · rw [addFiles_disabled env s files hd] at h
      simp at h
      exact Or.inl h.2.symm
    · have hd2 : s.w.Disabled = false := by simpa using hd
      by_cases hf : files = []
      · subst hf
        rw [addFiles_nil env s] at h
        simp at h
        exact Or.inl h.2.symm
      · cases hg : env.Getwd s.trace with
        | error err => exact Or.inr ⟨rfl, hd2, hf, rfl, err, rfl, herr err hd2 hf hg⟩
        | ok dirName => exact Or.inl (hok dirName hg)
  · have hne : files ≠ [] := by
      intro hf
      subst hf
      apply hk
      have h1 := min_le_right s.w.MaxWatchedFiles ([] : List File).length
      have h0 : (([] : List File).length : Int) = 0 := rfl
      omega
    have hsame : addFilesToFileWatcher env s
        (files.take (min s.w.MaxWatchedFiles files.length).toNat) =
        addFilesToFileWatcher env s files := by
      apply addFiles_congr_files env s _ files hM
      · constructor
        · intro h0
          rw [List.take_eq_nil_iff] at h0
          rcases h0 with h0 | h0
          · exact absurd h0 hk
          · exact h0
        · intro h0
          exact absurd h0 hne
      · exact take_min_take files s.w.MaxWatchedFiles hM
    exact ⟨s2, r, s2, r, calls, h, hsame.trans h, rfl, rfl, rfl, Or.inl rfl, ht, hcnt, hlast⟩

/-- C5 at a concrete input: capacity 2, three tracked files, a watcher over
capacity. -/
theorem C5_candidate_cap_witness :
    (0 : Int) ≤ (active 2 ["/repo/x", "/repo/y", "/repo/z"]).w.MaxWatchedFiles ∧
    (addFilesToFileWatcher envOk (active 2 ["/repo/x", "/repo/y", "/repo/z"])
        [tracked "a", tracked "b", tracked "c"]).map (fun t => t.1.w.WatchedFilenames) =
      some ["/repo/z", "/repo/a", "/repo/b"] ∧
    ∃ s2 r s3 r3 calls,
      addFilesToFileWatcher envOk (active 2 ["/repo/x", "/repo/y", "/repo/z"])
        [tracked "a", tracked "b", tracked "c"] = some (s2, r) ∧
      addFilesToFileWatcher envOk (active 2 ["/repo/x", "/repo/y", "/repo/z"])
        ([tracked "a", tracked "b", tracked "c"].take
          (min (active 2 ["/repo/x", "/repo/y", "/repo/z"]).w.MaxWatchedFiles
            ([tracked "a", tracked "b", tracked "c"] : List File).length).toNat) =
        some (s3, r3) ∧
      s2.w = s3.w ∧
      subscribed s2.trace = subscribed s3.trace ∧
      unsubscribed s2.trace = unsubscribed s3.trace ∧
      (r = r3 ∨
        ((min (active 2 ["/repo/x", "/repo/y", "/repo/z"]).w.MaxWatchedFiles
            ([tracked "a", tracked "b", tracked "c"] : List File).length).toNat = 0 ∧
          (active 2 ["/repo/x", "/repo/y", "/repo/z"]).w.Disabled = false ∧
          [tracked "a", tracked "b", tracked "c"] ≠ [] ∧ r3 = none ∧
          ∃ err, envOk.Getwd (active 2 ["/repo/x", "/repo/y", "/repo/z"]).trace =
            Except.error err ∧ r = some err)) ∧
      s2.trace = (active 2 ["/repo/x", "/repo/y", "/repo/z"]).trace ++ calls ∧
      (subscribed calls).length ≤
        (min (active 2 ["/repo/x", "/repo/y", "/repo/z"]).w.MaxWatchedFiles
          ([tracked "a", tracked "b", tracked "c"] : List File).length).toNat ∧
      ∀ files2 : List File,
        files2.length = ([tracked "a", tracked "b", tracked "c"] : List File).length →
        files2.take (min (active 2 ["/repo/x", "/repo/y", "/repo/z"]).w.MaxWatchedFiles
            ([tracked "a", tracked "b", tracked "c"] : List File).length).toNat =
          [tracked "a", tracked "b", tracked "c"].take
            (min (active 2 ["/repo/x", "/repo/y", "/repo/z"]).w.MaxWatchedFiles
              ([tracked "a", tracked "b", tracked "c"] : List File).length).toNat →
        addFilesToFileWatcher envOk (active 2 ["/repo/x", "/repo/y", "/repo/z"]) files2 =
          addFilesToFileWatcher envOk (active 2 ["/repo/x", "/repo/y", "/repo/z"])
            [tracked "a", tracked "b", tracked "c"] :=
  ⟨by decide, by decide,
    C5_candidate_cap envOk (active 2 ["/repo/x", "/repo/y", "/repo/z"])
      [tracked "a", tracked "b", tracked "c"] (by decide)⟩

/-- C6 as stated fails: a list whose only entry is deleted, given to an active
watcher while `os.Getwd` fails, does not return success but the error of
`os.Getwd`. -/
theorem C6_deleted_only_list_can_return_error :
    (∀ file ∈ [deleted "a"], file.Deleted = true) ∧
    (active 1 []).w.Disabled = false ∧
    addFilesToFileWatcher envNoWd (active 1 []) [deleted "a"] =
      some ({ w := (active 1 []).w, trace := [Effect.Getwd] },
        some "getwd: no such file or directory") := by
  refine ⟨?_, rfl, ?_⟩
  · intro file hfile
    simp at hfile
    subst hfile
    rfl
  · decide

/-- C6, amended: with a capacity that is not negative the call returns; every
name passed to `Add` during it is the join of the working directory with the
`Name` of a tracked file whose `Deleted` flag is false; and when every tracked
file is deleted the call makes no `Add` and no `Remove`, leaves the watcher as
it was, and returns nil whenever `os.Getwd` succeeds (when `os.Getwd` fails on
an active watcher and a list that is not empty, it returns that error). -/
theorem C6_deleted_files_are_skipped (env : Env) (s : State) (files : List File)
    (hM : 0 ≤ s.w.MaxWatchedFiles) :
    ∃ s2 r calls, addFilesToFileWatcher env s files = some (s2, r) ∧
      s2.trace = s.trace ++ calls ∧
      (∀ name ∈ subscribed calls, ∃ dirName file,
        env.Getwd s.trace = Except.ok dirName ∧ file ∈ files ∧
        file.Deleted = false ∧ name = env.Join dirName file.Name) ∧
      ((∀ file ∈ files, file.Deleted = true) →
        subscribed calls = [] ∧ unsubscribed calls = [] ∧ s2.w = s.w ∧
        (∀ dirName, env.Getwd s.trace = Except.ok dirName → r = none) ∧
        (∀ err, s.w.Disabled = false → files ≠ [] →
          env.Getwd s.trace = Except.error err → r = some err)) := by
  obtain ⟨s2, r, h⟩ := addFiles_total env s files hM
  obtain ⟨hdis, hmax, calls, ht, hr, _, hfrom, _, hrem⟩ := addFiles_calls env s s2 files r h
  have hfrom2 : ∀ name ∈ subscribed calls, ∃ dirName file,
      env.Getwd s.trace = Except.ok dirName ∧ file ∈ files ∧
      file.Deleted = false ∧ name = env.Join dirName file.Name := by
    intro name hname
    obtain ⟨dirName, file, hg, hmem, hdel, hn⟩ := hfrom name hname
    exact ⟨dirName, file, hg, List.mem_of_mem_take hmem, hdel, hn⟩
  refine ⟨s2, r, calls, h, ht, hfrom2, ?_⟩
  intro hall
  have hsub : subscribed calls = [] := by
    apply List.eq_nil_iff_forall_not_mem.2
    intro name hname
    obtain ⟨_, file, _, hmem, hdel, _⟩ := hfrom2 name hname
    rw [hall file hmem] at hdel
    cases hdel
  have hunsub : unsubscribed calls = [] := by
    apply List.length_eq_zero.1
    rw [hsub] at hrem
    simpa using hrem
  have hnames : s2.w.WatchedFilenames = s.w.WatchedFilenames := by
    rw [hr, replay_quiet _ _ hsub hunsub]
  have hw : s2.w = s.w := by
    cases hs2 : s2.w
    cases hs : s.w
    rw [hs2, hs] at hdis hmax hnames
    simp at hdis hmax hnames
    simp [hdis, hmax, hnames]
  exact ⟨hsub, hunsub, hw, addFiles_return env s s2 files r hM h⟩

/-- C6 at a concrete input: two deleted files and a watcher below capacity. -/
theorem C6_deleted_files_are_skipped_witness :
    (0 : Int) ≤ (active 2 ["/repo/a"]).w.MaxWatchedFiles ∧
    ∃ s2 r calls,
      addFilesToFileWatcher envOk (active 2 ["/repo/a"]) [deleted "b", deleted "c"] =
        some (s2, r) ∧
      s2.trace = (active 2 ["/repo/a"]).trace ++ calls ∧
      (∀ name ∈ subscribed calls, ∃ dirName file,
        envOk.Getwd (active 2 ["/repo/a"]).trace = Except.ok dirName ∧
        file ∈ [deleted "b", deleted "c"] ∧
        file.Deleted = false ∧ name = envOk.Join dirName file.Name) ∧
      ((∀ file ∈ [deleted "b", deleted "c"], file.Deleted = true) →
        subscribed calls = [] ∧ unsubscribed calls = [] ∧
        s2.w = (active 2 ["/repo/a"]).w ∧
        (∀ dirName, envOk.Getwd (active 2 ["/repo/a"]).trace = Except.ok dirName → r = none) ∧
        (∀ err, (active 2 ["/repo/a"]).w.Disabled = false → [deleted "b", deleted "c"] ≠ [] →
          envOk.Getwd (active 2 ["/repo/a"]).trace = Except.error err → r = some err)) :=
  ⟨by decide,
    C6_deleted_files_are_skipped envOk (active 2 ["/repo/a"]) [deleted "b", deleted "c"]
      (by decide)⟩

/-- C7: on a disabled watcher `addFilesToFileWatcher` returns nil and gives
back the very state it was given, for every list of tracked files and every
outside world: no field of the watcher changes and no effect is performed,
neither `os.Getwd` nor a watcher call. -/
theorem C7_disabled_is_noop (env : Env) (s : State) (files : List File)
    (h : s.w.Disabled = true) :
    addFilesToFileWatcher env s files = some (s, none) :=
  addFiles_disabled env s files h

/-- C7 at a concrete input: the disabled watcher built by `NewFileWatcher` when
`fsnotify.NewWatcher` fails. -/
theorem C7_disabled_is_noop_witness :
    (State.mk { WatchedFilenames := [], Disabled := true, MaxWatchedFiles := 0 }
        [Effect.NewWatcher, Effect.LogError "too many open files"]).w.Disabled = true ∧
    addFilesToFileWatcher envNoWd
      (State.mk { WatchedFilenames := [], Disabled := true, MaxWatchedFiles := 0 }
        [Effect.NewWatcher, Effect.LogError "too many open files"])
      [tracked "a", deleted "b"] =
      some (State.mk { WatchedFilenames := [], Disabled := true, MaxWatchedFiles := 0 }
        [Effect.NewWatcher, Effect.LogError "too many open files"], none) :=
  ⟨rfl, C7_disabled_is_noop envNoWd _ _ rfl⟩

/-- C8: with a capacity that is not negative the call returns, and the error
it returns is non-nil exactly when the watcher is not disabled, the list is not
empty and `os.Getwd` fails; the error is then the one of `os.Getwd`.  This
holds for every outside world, so whatever `Add` and `Remove` answer; and an
empty list returns nil whatever `os.Getwd` would answer. -/
theorem C8_error_iff_getwd_fails (env : Env) (s : State) (files : List File)
    (hM : 0 ≤ s.w.MaxWatchedFiles) :
    (∃ s2 r, addFilesToFileWatcher env s files = some (s2, r) ∧
      (r ≠ none ↔
        (s.w.Disabled = false ∧ files ≠ [] ∧ ∃ err, env.Getwd s.trace = Except.error err)) ∧
      (∀ err, r = some err → env.Getwd s.trace = Except.error err)) ∧
    addFilesToFileWatcher env s [] = some (s, none) := by
  refine ⟨?_, addFiles_nil env s⟩
  by_cases hd : s.w.Disabled = true
  · refine ⟨s, none, addFiles_disabled env s files hd, ?_, ?_⟩
    · simp [hd]
    · intro err he
      cases he
  · have hd2 : s.w.Disabled = false := by simpa using hd
    by_cases hf : files = []
    · subst hf
      refine ⟨s, none, addFiles_nil env s, ?_, ?_⟩
      · simp
      · intro err he
        cases he
    · cases hg : env.Getwd s.trace with
      | error err =>
        refine ⟨_, some err, addFiles_getwd_error env s files err hd2 hf hg, ?_, ?_⟩
        · simp [hd2, hf]
        · intro e he
          cases he
          rfl
      | ok dirName =>
        obtain ⟨s2, h2⟩ := forLoop_total env dirName
          (files.take (min s.w.MaxWatchedFiles files.length).toNat)
          { s with trace := s.trace ++ [Effect.Getwd] } hM
        refine ⟨s2, none, ?_, ?_, ?_⟩
        · rw [addFiles_getwd_ok env s files dirName hd2 hf hM hg, h2]
          rfl
        · simp
        · intro e he
          cases he

/-- C8 at a concrete input: one tracked file, every watcher call failing. -/
theorem C8_error_iff_getwd_fails_witness :
    (0 : Int) ≤ (active 1 []).w.MaxWatchedFiles ∧
    ((∃ s2 r, addFilesToFileWatcher envWatcherFails (active 1 []) [tracked "a"] = some (s2, r) ∧
      (r ≠ none ↔
        ((active 1 []).w.Disabled = false ∧ [tracked "a"] ≠ [] ∧
          ∃ err, envWatcherFails.Getwd (active 1 []).trace = Except.error err)) ∧
      (∀ err, r = some err →
        envWatcherFails.Getwd (active 1 []).trace = Except.error err)) ∧
    addFilesToFileWatcher envWatcherFails (active 1 []) [] = some (active 1 [], none)) :=
  ⟨by decide, C8_error_iff_getwd_fails envWatcherFails (active 1 []) [tracked "a"] (by decide)⟩

/-- C9: on a watcher that is not disabled and a list that is not empty, when
`os.Getwd` fails the call returns that error, performs no effect but the call
of `os.Getwd` itself (no `Add`, no `Remove`) and leaves the watcher, that is
`WatchedFilenames`, `MaxWatchedFiles` and `Disabled`, as it was. -/
theorem C9_getwd_failure_changes_nothing (env : Env) (s : State) (files : List File)
    (err : Error) (hd : s.w.Disabled = false) (hf : files ≠ [])
    (hg : env.Getwd s.trace = Except.error err) :
    ∃ s2, addFilesToFileWatcher env s files = some (s2, some err) ∧
      s2.w = s.w ∧ s2.trace = s.trace ++ [Effect.Getwd] ∧
      subscribed s2.trace = subscribed s.trace ∧
      unsubscribed s2.trace = unsubscribed s.trace := by
  refine ⟨{ s with trace := s.trace ++ [Effect.Getwd] }, ?_, rfl, rfl, ?_, ?_⟩
  · exact addFiles_getwd_error env s files err hd hf hg
  · simp [subscribed_append, subscribed]
  · simp [unsubscribed_append, unsubscribed]

/-- C9 at a concrete input: a watcher over capacity and a file not yet
watched, with `os.Getwd` failing. -/
theorem C9_getwd_failure_changes_nothing_witness :
    (active 1 ["/repo/a", "/repo/b"]).w.Disabled = false ∧
    [tracked "c"] ≠ [] ∧
    envNoWd.Getwd (active 1 ["/repo/a", "/repo/b"]).trace =
      Except.error "getwd: no such file or directory" ∧
    ∃ s2, addFilesToFileWatcher envNoWd (active 1 ["/repo/a", "/repo/b"]) [tracked "c"] =
        some (s2, some "getwd: no such file or directory") ∧
      s2.w = (active 1 ["/repo/a", "/repo/b"]).w ∧
      s2.trace = (active 1 ["/repo/a", "/repo/b"]).trace ++ [Effect.Getwd] ∧
      subscribed s2.trace = subscribed (active 1 ["/repo/a", "/repo/b"]).trace ∧
      unsubscribed s2.trace = unsubscribed (active 1 ["/repo/a", "/repo/b"]).trace :=
  ⟨rfl, by simp, rfl,
    C9_getwd_failure_changes_nothing envNoWd (active 1 ["/repo/a", "/repo/b"]) [tracked "c"]
      "getwd: no such file or directory" rfl (by simp) rfl⟩

/-- C10: in two outside worlds that differ only in what `Watcher.Add` and
`Watcher.Remove` answer, a call on the same state and the same tracked files
ends with the same watcher (so the same `WatchedFilenames`) and the same
returned error, and with a capacity that is not negative both calls return.
`watchFilename` appends the name and `popOldestFilename` drops index 0
whatever the watcher answers. -/
theorem C10_bookkeeping_ignores_watcher_answers (env1 env2 : Env) (s : State)
    (files : List File) (hJ : env1.Join = env2.Join)
    (hG : env1.Getwd s.trace = env2.Getwd s.trace) :
    (addFilesToFileWatcher env1 s files).map (fun r => (r.1.w, r.2)) =
      (addFilesToFileWatcher env2 s files).map (fun r => (r.1.w, r.2)) ∧
    (0 ≤ s.w.MaxWatchedFiles → ∃ t1 t2 r,
      addFilesToFileWatcher env1 s files = some (t1, r) ∧
      addFilesToFileWatcher env2 s files = some (t2, r) ∧ t1.w = t2.w) ∧
    (∀ filename, (watchFilename env1 s filename).w.WatchedFilenames =
      s.w.WatchedFilenames ++ [filename]) ∧
    (∀ oldest rest, s.w.WatchedFilenames = oldest :: rest →
      ∃ s1, popOldestFilename env1 s = some s1 ∧ s1.w.WatchedFilenames = rest) := by
  have hb := addFiles_bookkeeping env1 env2 s s files hJ hG rfl
  refine ⟨hb, ?_, fun _ => rfl, ?_⟩
  · intro hM
    obtain ⟨t1, r1, h1⟩ := addFiles_total env1 s files hM
    obtain ⟨t2, r2, h2⟩ := addFiles_total env2 s files hM
    rw [h1, h2] at hb
    simp at hb
    exact ⟨t1, t2, r1, h1, by rw [h2, hb.2], hb.1⟩
  · intro oldest rest hL
    obtain ⟨s1, _, hp, hw, _⟩ := popOldestFilename_spec env1 s oldest rest hL
    exact ⟨s1, hp, by rw [hw]⟩

/-- C10 at a concrete input: a watcher over capacity, one new file, in a world
where every watcher call succeeds and in one where every watcher call fails. -/
theorem C10_bookkeeping_ignores_watcher_answers_witness :
    envOk.Join = envWatcherFails.Join ∧
    envOk.Getwd (active 1 ["/repo/a", "/repo/b"]).trace =
      envWatcherFails.Getwd (active 1 ["/repo/a", "/repo/b"]).trace ∧
    (addFilesToFileWatcher envOk (active 1 ["/repo/a", "/repo/b"]) [tracked "c"]).map
        (fun r => (r.1.w, r.2)) =
      (addFilesToFileWatcher envWatcherFails (active 1 ["/repo/a", "/repo/b"])
        [tracked "c"]).map (fun r => (r.1.w, r.2)) ∧
    (addFilesToFileWatcher envWatcherFails (active 1 ["/repo/a", "/repo/b"])
        [tracked "c"]).map (fun r => (r.1.w.WatchedFilenames, r.2)) =
      some (["/repo/b", "/repo/c"], none) :=
  ⟨rfl, rfl,
    (C10_bookkeeping_ignores_watcher_answers envOk envWatcherFails
      (active 1 ["/repo/a", "/repo/b"]) [tracked "c"] rfl rfl).1, by decide⟩

/-- C11: on an active watcher with a capacity that is not negative and no
watched name, a call that succeeds (the list is empty or `os.Getwd` answers
`dirName`) returns nil, and `WatchedFilenames` is then the list of the joined
paths of the tracked files that are not deleted among the first
`min(MaxWatchedFiles, len(files))`, in the order given, later repeats removed;
no `Remove` call is made. -/
theorem C11_reconcile_from_empty (env : Env) (s : State) (files : List File)
    (dirName : String) (hM : 0 ≤ s.w.MaxWatchedFiles) (hd : s.w.Disabled = false)
    (hL : s.w.WatchedFilenames = [])
    (hg : files = [] ∨ env.Getwd s.trace = Except.ok dirName) :
    ∃ s2, addFilesToFileWatcher env s files = some (s2, none) ∧
      s2.w.WatchedFilenames =
        keepFirst (joinedPaths env.Join dirName
          (files.take (min s.w.MaxWatchedFiles files.length).toNat)) ∧
      unsubscribed s2.trace = unsubscribed s.trace := by
  by_cases hf : files = []
  · subst hf
    refine ⟨s, addFiles_nil env s, ?_, rfl⟩
    rw [hL, List.take_nil]
    rfl
  · have hgw : env.Getwd s.trace = Except.ok dirName := by
      rcases hg with h | h
      · exact absurd h hf
      · exact h
    have hk1 := min_le_right s.w.MaxWatchedFiles files.length
    have hk2 := min_nonneg s.w.MaxWatchedFiles files.length hM (by omega)
    have hkM : min s.w.MaxWatchedFiles files.length ≤ s.w.MaxWatchedFiles := by
      unfold min
      split <;> omega
    have hlen := List.length_take_le (min s.w.MaxWatchedFiles files.length).toNat files
    have hcap : ((({ s with trace := s.trace ++ [Effect.Getwd] } : State).w.WatchedFilenames.length
        : Nat) : Int) +
        ((files.take (min s.w.MaxWatchedFiles files.length).toNat).length : Nat) ≤
        ({ s with trace := s.trace ++ [Effect.Getwd] } : State).w.MaxWatchedFiles := by
      show ((s.w.WatchedFilenames.length : Nat) : Int) + _ ≤ s.w.MaxWatchedFiles
      rw [hL]
      simp only [List.length_nil]
      omega
    obtain ⟨s2, h2, hn, hu⟩ := forLoop_below_capacity env dirName
      (files.take (min s.w.MaxWatchedFiles files.length).toNat)
      { s with trace := s.trace ++ [Effect.Getwd] } hcap
    refine ⟨s2, ?_, ?_, ?_⟩
    · rw [addFiles_getwd_ok env s files dirName hd hf hM hgw, h2]
      rfl
    · rw [hn]
      show List.foldl addNew s.w.WatchedFilenames _ = _
      rw [hL]
      rfl
    · rw [hu]
      simp [unsubscribed_append, unsubscribed]

/-- C11 at a concrete input: capacity 2 and the tracked files `a.txt`, `b.txt`,
`c.txt` give `[a.txt, b.txt]`. -/
theorem C11_reconcile_from_empty_witness :
    (0 : Int) ≤ (active 2 []).w.MaxWatchedFiles ∧
    (active 2 []).w.Disabled = false ∧
    (active 2 []).w.WatchedFilenames = [] ∧
    envOk.Getwd (active 2 []).trace = Except.ok "/repo" ∧
    keepFirst (joinedPaths envOk.Join "/repo"
      ([tracked "a.txt", tracked "b.txt", tracked "c.txt"].take
        (min (active 2 []).w.MaxWatchedFiles
          ([tracked "a.txt", tracked "b.txt", tracked "c.txt"] : List File).length).toNat)) =
      ["/repo/a.txt", "/repo/b.txt"] ∧
    ∃ s2, addFilesToFileWatcher envOk (active 2 [])
        [tracked "a.txt", tracked "b.txt", tracked "c.txt"] = some (s2, none) ∧
      s2.w.WatchedFilenames =
        keepFirst (joinedPaths envOk.Join "/repo"
          ([tracked "a.txt", tracked "b.txt", tracked "c.txt"].take
            (min (active 2 []).w.MaxWatchedFiles
              ([tracked "a.txt", tracked "b.txt", tracked "c.txt"] : List File).length).toNat)) ∧
      unsubscribed s2.trace = unsubscribed (active 2 []).trace :=
  ⟨by decide, rfl, rfl, rfl, by decide,
    C11_reconcile_from_empty envOk (active 2 [])
      [tracked "a.txt", tracked "b.txt", tracked "c.txt"] "/repo" (by decide) rfl rfl
      (Or.inr rfl)⟩

/-- C12: on a watcher of any length (capacity not negative), when each of the
first `min(MaxWatchedFiles, len(files))` tracked files is deleted or has its
joined path already watched, the call returns, makes no `Add` and no `Remove`
call and leaves the watcher, so `WatchedFilenames` with its order, as it was:
no watched name is removed, whether its file is deleted, listed or not. -/
theorem C12_watched_paths_left_in_place (env : Env) (s : State) (files : List File)
    (hM : 0 ≤ s.w.MaxWatchedFiles)
    (hskip : ∀ dirName, env.Getwd s.trace = Except.ok dirName →
      ∀ file ∈ files.take (min s.w.MaxWatchedFiles files.length).toNat,
        file.Deleted = true ∨ env.Join dirName file.Name ∈ s.w.WatchedFilenames) :
    ∃ s2 r, addFilesToFileWatcher env s files = some (s2, r) ∧
      s2.w = s.w ∧
      subscribed s2.trace = subscribed s.trace ∧
      unsubscribed s2.trace = unsubscribed s.trace := by
  have hidle : subscribed (s.trace ++ [Effect.Getwd]) = subscribed s.trace ∧
      unsubscribed (s.trace ++ [Effect.Getwd]) = unsubscribed s.trace := by
    simp [subscribed_append, unsubscribed_append, subscribed, unsubscribed]
  by_cases hd : s.w.Disabled = true
  · exact ⟨s, none, addFiles_disabled env s files hd, rfl, rfl, rfl⟩
  · have hd2 : s.w.Disabled = false := by simpa using hd
    by_cases hf : files = []
    · subst hf
      exact ⟨s, none, addFiles_nil env s, rfl, rfl, rfl⟩
    · cases hg : env.Getwd s.trace with
      | error err =>
        exact ⟨_, _, addFiles_getwd_error env s files err hd2 hf hg, rfl, hidle.1, hidle.2⟩
      | ok dirName =>
        refine ⟨{ s with trace := s.trace ++ [Effect.Getwd] }, none, ?_, rfl, hidle.1,
          hidle.2⟩
        rw [addFiles_getwd_ok env s files dirName hd2 hf hM hg,
          forLoop_skip env dirName _ { s with trace := s.trace ++ [Effect.Getwd] }
            (hskip dirName hg)]
        rfl

/-- C12 at a concrete input: a watcher over capacity, one file already watched,
one deleted; the watched `/repo/c` is not listed at all. -/
theorem C12_watched_paths_left_in_place_witness :
    (0 : Int) ≤ (active 2 ["/repo/a", "/repo/b", "/repo/c"]).w.MaxWatchedFiles ∧
    ∃ s2 r, addFilesToFileWatcher envOk (active 2 ["/repo/a", "/repo/b", "/repo/c"])
        [tracked "b", deleted "a", tracked "z"] = some (s2, r) ∧
      s2.w = (active 2 ["/repo/a", "/repo/b", "/repo/c"]).w ∧
      subscribed s2.trace = subscribed (active 2 ["/repo/a", "/repo/b", "/repo/c"]).trace ∧
      unsubscribed s2.trace =
        unsubscribed (active 2 ["/repo/a", "/repo/b", "/repo/c"]).trace :=
  ⟨by decide,
    C12_watched_paths_left_in_place envOk (active 2 ["/repo/a", "/repo/b", "/repo/c"])
      [tracked "b", deleted "a", tracked "z"] (by decide) (by
        intro dirName hg file hfile
        have hdir : dirName = "/repo" := by
          have h1 : (Except.ok "/repo" : Except Error String) = Except.ok dirName := hg
          cases h1
          rfl
        subst hdir
        have hcases : file = tracked "b" ∨ file = deleted "a" := by
          have h2 : file ∈ [tracked "b", deleted "a"] := hfile
          simpa using h2
        rcases hcases with rfl | rfl
        · exact Or.inr (by decide)
        · exact Or.inl rfl)⟩

/-- C13: with a capacity that is not negative the call returns and there is a
number `p`, at most the number of names watched before and at most the number
of names subscribed, such that `WatchedFilenames` after the call is the list
before it without its first `p` names, followed by the names subscribed during
the call in the order of their `Add`; the names passed to `Remove` are the
first `p` names of the list before the call, in order; every name subscribed
during the call is still watched when the call returns. -/
theorem C13_strict_fifo (env : Env) (s : State) (files : List File)
    (hM : 0 ≤ s.w.MaxWatchedFiles) :
    ∃ s2 r p adds, addFilesToFileWatcher env s files = some (s2, r) ∧
      p ≤ s.w.WatchedFilenames.length ∧ p ≤ adds.length ∧
      s2.w.WatchedFilenames = s.w.WatchedFilenames.drop p ++ adds ∧
      subscribed s2.trace = subscribed s.trace ++ adds ∧
      unsubscribed s2.trace = unsubscribed s.trace ++ s.w.WatchedFilenames.take p ∧
      ∀ name ∈ adds, name ∈ s2.w.WatchedFilenames := by
  obtain ⟨s2, r, p, adds, h, hp1, hp2, hn, hsub, hunsub⟩ := addFiles_fifo env s files hM
  refine ⟨s2, r, p, adds, h, hp1, hp2, hn, hsub, hunsub, ?_⟩
  intro name hname
  rw [hn]
  exact List.mem_append_right _ hname

/-- C13 at a concrete input: capacity 2, three names watched, two new files;
`/repo/x` and `/repo/y` are evicted in that order. -/
theorem C13_strict_fifo_witness :
    (0 : Int) ≤ (active 2 ["/repo/x", "/repo/y", "/repo/z"]).w.MaxWatchedFiles ∧
    (addFilesToFileWatcher envOk (active 2 ["/repo/x", "/repo/y", "/repo/z"])
        [tracked "a", tracked "b"]).map
        (fun t => (t.1.w.WatchedFilenames, unsubscribed t.1.trace)) =
      some (["/repo/z", "/repo/a", "/repo/b"], ["/repo/x", "/repo/y"]) ∧
    ∃ s2 r p adds,
      addFilesToFileWatcher envOk (active 2 ["/repo/x", "/repo/y", "/repo/z"])
        [tracked "a", tracked "b"] = some (s2, r) ∧
      p ≤ (active 2 ["/repo/x", "/repo/y", "/repo/z"]).w.WatchedFilenames.length ∧
      p ≤ adds.length ∧
      s2.w.WatchedFilenames =
        (active 2 ["/repo/x", "/repo/y", "/repo/z"]).w.WatchedFilenames.drop p ++ adds ∧
      subscribed s2.trace =
        subscribed (active 2 ["/repo/x", "/repo/y", "/repo/z"]).trace ++ adds ∧
      unsubscribed s2.trace =
        unsubscribed (active 2 ["/repo/x", "/repo/y", "/repo/z"]).trace ++
          (active 2 ["/repo/x", "/repo/y", "/repo/z"]).w.WatchedFilenames.take p ∧
      ∀ name ∈ adds, name ∈ s2.w.WatchedFilenames :=
  ⟨by decide, by decide,
    C13_strict_fifo envOk (active 2 ["/repo/x", "/repo/y", "/repo/z"])
      [tracked "a", tracked "b"] (by decide)⟩

/-- C14: one pass of the event loop on a change event calls
`refreshSidePanels`, with mode `ASYNC` and scope `FILES`, exactly once when the
operation of the event is not equal to `fsnotify.Chmod` and
`IsRefreshingFiles` is false, and makes no call at all otherwise; so an event
whose operation is `Chmod` never triggers a refresh, whatever the flag; and a
pass that receives a value from the error channel, nil or not, never calls
`refreshSidePanels`. -/
theorem C14_event_loop_decision (c : Consts) (IsRefreshingFiles : Bool) (event : Event)
    (name : String) (err : Option Error) :
    loopIteration c IsRefreshingFiles (Received.event event) =
      (if event.Op ≠ c.Chmod ∧ IsRefreshingFiles = false then
        [LoopEffect.refreshSidePanels { mode := c.ASYNC, scope := [c.FILES] }]
      else []) ∧
    refreshCalls (loopIteration c IsRefreshingFiles (Received.event event)) =
      (if event.Op ≠ c.Chmod ∧ IsRefreshingFiles = false then 1 else 0) ∧
    refreshCalls (loopIteration c IsRefreshingFiles
      (Received.event { Name := name, Op := c.Chmod })) = 0 ∧
    refreshCalls (loopIteration c IsRefreshingFiles (Received.error err)) = 0 := by
  refine ⟨?_, ?_, ?_, ?_⟩
  · by_cases hop : event.Op = c.Chmod
    · simp [loopIteration, hop]
    · cases IsRefreshingFiles <;> simp [loopIteration, hop]
  · by_cases hop : event.Op = c.Chmod
    · simp [loopIteration, hop, refreshCalls]
    · cases IsRefreshingFiles <;> simp [loopIteration, hop, refreshCalls]
  · simp [loopIteration, refreshCalls]
  · cases err <;> simp [loopIteration, refreshCalls]

/-- C15: for a capacity that is not negative `NewFileWatcher` returns a watcher
whatever `fsnotify.NewWatcher` answers.  When it fails the watcher has
`Disabled = true`, `watchFilesForChanges` starts no event loop and any number
of later calls of `addFilesToFileWatcher`, in any outside world, leaves the
state as it is (each returns nil).  When it succeeds the watcher has
`Disabled = false`, an empty `WatchedFilenames` and `MaxWatchedFiles` equal to
the argument, and `watchFilesForChanges` starts the event loop. -/
theorem C15_construction_never_fails (env : Env) (trace : List Effect)
    (maxWatchedFiles : Int) (hM : 0 ≤ maxWatchedFiles) :
    ∃ s, NewFileWatcher env trace maxWatchedFiles = some s ∧
      (∀ err, env.NewWatcher trace = some err →
        s.w.Disabled = true ∧
        watchFilesForChanges env trace maxWatchedFiles = some (s, false) ∧
        (∀ env2 files, addFilesToFileWatcher env2 s files = some (s, none)) ∧
        ∀ env2 lists, reconcileAll env2 s lists = some s) ∧
      (env.NewWatcher trace = none →
        s.w = { WatchedFilenames := [], Disabled := false,
                MaxWatchedFiles := maxWatchedFiles } ∧
        watchFilesForChanges env trace maxWatchedFiles = some (s, true)) := by
  obtain ⟨s, hs, hfail, hok⟩ := NewFileWatcher_spec env trace maxWatchedFiles hM
  refine ⟨s, hs, ?_, ?_⟩
  · intro err herr
    have hw := hfail err herr
    have hdis : s.w.Disabled = true := by rw [hw]
    refine ⟨hdis, ?_, fun env2 files => addFiles_disabled env2 s files hdis,
      fun env2 lists => reconcileAll_disabled env2 s lists hdis⟩
    simp [watchFilesForChanges, hs, hdis]
  · intro hnone
    have hw := hok hnone
    have hdis : s.w.Disabled = false := by rw [hw]
    refine ⟨hw, ?_⟩
    simp [watchFilesForChanges, hs, hdis]

/-- C15 at a concrete input: `fsnotify.NewWatcher` failing, capacity 5. -/
theorem C15_construction_never_fails_witness :
    (0 : Int) ≤ 5 ∧
    NewFileWatcher envNoWatcher [] 5 =
      some { w := { WatchedFilenames := [], Disabled := true, MaxWatchedFiles := 0 },
             trace := [Effect.NewWatcher, Effect.LogError "too many open files"] } ∧
    ∃ s, NewFileWatcher envNoWatcher [] 5 = some s ∧
      (∀ err, envNoWatcher.NewWatcher [] = some err →
        s.w.Disabled = true ∧
        watchFilesForChanges envNoWatcher [] 5 = some (s, false) ∧
        (∀ env2 files, addFilesToFileWatcher env2 s files = some (s, none)) ∧
        ∀ env2 lists, reconcileAll env2 s lists = some s) ∧
      (envNoWatcher.NewWatcher [] = none →
        s.w = { WatchedFilenames := [], Disabled := false, MaxWatchedFiles := 5 } ∧
        watchFilesForChanges envNoWatcher [] 5 = some (s, true)) :=
  ⟨by decide, by decide, C15_construction_never_fails envNoWatcher [] 5 (by decide)⟩

/-- C17: on a watcher with a capacity `M` that is not negative and at most
`M + 1` watched names, the loop of `addFilesToFileWatcher` run over any list
of candidates (so after each of its iterations) returns with at most `M + 1`
watched names, and so do the call itself and any number of calls in a row; a
newly constructed watcher is such a watcher, so the bound holds in every state
reached from construction; and the bound is met: a new watcher of capacity 1
reconciled with `[a]` and then `[b]` watches 2 names. -/
theorem C17_effective_length_bound (env : Env) (s : State) (files : List File)
    (hM : 0 ≤ s.w.MaxWatchedFiles)
    (hlen : (s.w.WatchedFilenames.length : Int) ≤ s.w.MaxWatchedFiles + 1) :
    (∀ dirName candidates, ∃ s2, forLoop env dirName s candidates = some s2 ∧
      (s2.w.WatchedFilenames.length : Int) ≤ s2.w.MaxWatchedFiles + 1) ∧
    (∃ s2 r, addFilesToFileWatcher env s files = some (s2, r) ∧
      (s2.w.WatchedFilenames.length : Int) ≤ s2.w.MaxWatchedFiles + 1) ∧
    (∀ lists, ∃ s2, reconcileAll env s lists = some s2 ∧
      (s2.w.WatchedFilenames.length : Int) ≤ s2.w.MaxWatchedFiles + 1) ∧
    (∀ (env2 : Env) (trace : List Effect) (m : Int), 0 ≤ m →
      ∃ s0, NewFileWatcher env2 trace m = some s0 ∧
        ∀ lists, ∃ s2, reconcileAll env2 s0 lists = some s2 ∧
          (s2.w.WatchedFilenames.length : Int) ≤ s2.w.MaxWatchedFiles + 1) ∧
    (∃ s0 s2, NewFileWatcher envOk [] 1 = some s0 ∧
      reconcileAll envOk s0 [[tracked "a"], [tracked "b"]] = some s2 ∧
      s2.w.MaxWatchedFiles = 1 ∧ s2.w.WatchedFilenames.length = 2) := by
  refine ⟨fun dirName candidates => forLoop_bound env dirName candidates s hM hlen, ?_,
    fun lists => reconcileAll_bound env s lists hM hlen, ?_, ?_⟩
  · obtain ⟨s2, r, h, _, hb⟩ := addFiles_bound env s files hM hlen
    exact ⟨s2, r, h, hb⟩
  · intro env2 trace m hm
    obtain ⟨s0, h0, hfail, hok⟩ := NewFileWatcher_spec env2 trace m hm
    refine ⟨s0, h0, ?_⟩
    intro lists
    cases hn : env2.NewWatcher trace with
    | some err =>
      have hw := hfail err hn
      exact reconcileAll_bound env2 s0 lists (by rw [hw]) (by rw [hw]; simp)
    | none =>
      have hw := hok hn
      exact reconcileAll_bound env2 s0 lists (by rw [hw]; exact hm) (by rw [hw]; simp; omega)
  · refine ⟨{ w := { WatchedFilenames := [], Disabled := false, MaxWatchedFiles := 1 },
              trace := [Effect.NewWatcher] },
            { w := { WatchedFilenames := ["/repo/a", "/repo/b"], Disabled := false,
                     MaxWatchedFiles := 1 },
              trace := [Effect.NewWatcher, Effect.Getwd, Effect.Add "/repo/a", Effect.Getwd,
                Effect.Add "/repo/b"] }, ?_, ?_, rfl, rfl⟩
    · decide
    · decide

/-- C17 at a concrete input: capacity 2, three names watched, two new files. -/
theorem C17_effective_length_bound_witness :
    (0 : Int) ≤ (active 2 ["/repo/x", "/repo/y", "/repo/z"]).w.MaxWatchedFiles ∧
    ((active 2 ["/repo/x", "/repo/y", "/repo/z"]).w.WatchedFilenames.length : Int) ≤
      (active 2 ["/repo/x", "/repo/y", "/repo/z"]).w.MaxWatchedFiles + 1 ∧
    ∃ s2 r, addFilesToFileWatcher envOk (active 2 ["/repo/x", "/repo/y", "/repo/z"])
        [tracked "a", tracked "b"] = some (s2, r) ∧
      (s2.w.WatchedFilenames.length : Int) ≤ s2.w.MaxWatchedFiles + 1 :=
  ⟨by decide, by decide,
    (C17_effective_length_bound envOk (active 2 ["/repo/x", "/repo/y", "/repo/z"])
      [tracked "a", tracked "b"] (by decide) (by decide)).2.1⟩

/-- C18: with a capacity that is not negative nothing is read out of range:
the slice `files[0:min(MaxWatchedFiles, len(files))]` is in range; whenever the
test `len(WatchedFilenames) > MaxWatchedFiles` that guards `popOldestFilename`
holds, the list is not empty and `popOldestFilename` returns; and the loop over
any candidates and the call itself return without a panic. -/
theorem C18_no_out_of_range_access (env : Env) (s : State) (files : List File)
    (hM : 0 ≤ s.w.MaxWatchedFiles) :
    sliceTo files (min s.w.MaxWatchedFiles files.length) =
      some (files.take (min s.w.MaxWatchedFiles files.length).toNat) ∧
    (0 ≤ min s.w.MaxWatchedFiles files.length ∧
      min s.w.MaxWatchedFiles files.length ≤ files.length) ∧
    (s.w.MaxWatchedFiles < (s.w.WatchedFilenames.length : Int) →
      ∃ oldest rest s1, s.w.WatchedFilenames = oldest :: rest ∧
        popOldestFilename env s = some s1) ∧
    (∀ dirName candidates, ∃ s2, forLoop env dirName s candidates = some s2) ∧
    ∃ s2 r, addFilesToFileWatcher env s files = some (s2, r) := by
  refine ⟨sliceTo_min files _ hM,
    ⟨min_nonneg _ _ hM (by omega), min_le_right _ _⟩, ?_,
    fun dirName candidates => forLoop_total env dirName candidates s hM,
    addFiles_total env s files hM⟩
  intro hover
  have hne : ∃ oldest rest, s.w.WatchedFilenames = oldest :: rest := by
    cases hL : s.w.WatchedFilenames with
    | nil =>
      rw [hL] at hover
      simp at hover
      omega
    | cons oldest rest => exact ⟨oldest, rest, rfl⟩
  obtain ⟨oldest, rest, hL⟩ := hne
  obtain ⟨s1, _, hp, _⟩ := popOldestFilename_spec env s oldest rest hL
  exact ⟨oldest, rest, s1, hL, hp⟩

/-- C18 at a concrete input: capacity 0, one name watched, two tracked files. -/
theorem C18_no_out_of_range_access_witness :
    (0 : Int) ≤ (active 0 ["/repo/x"]).w.MaxWatchedFiles ∧
    sliceTo [tracked "a", tracked "b"]
        (min (active 0 ["/repo/x"]).w.MaxWatchedFiles
          ([tracked "a", tracked "b"] : List File).length) =
      some ([tracked "a", tracked "b"].take
        (min (active 0 ["/repo/x"]).w.MaxWatchedFiles
          ([tracked "a", tracked "b"] : List File).length).toNat) ∧
    ∃ s2 r, addFilesToFileWatcher envOk (active 0 ["/repo/x"])
      [tracked "a", tracked "b"] = some (s2, r) :=
  ⟨by decide,
    (C18_no_out_of_range_access envOk (active 0 ["/repo/x"]) [tracked "a", tracked "b"]
      (by decide)).1,
    (C18_no_out_of_range_access envOk (active 0 ["/repo/x"]) [tracked "a", tracked "b"]
      (by decide)).2.2.2.2⟩

/-- C19: with a capacity that is not negative the call returns; in the watcher
calls it makes, every `Remove` is immediately followed by an `Add`; the number
of watched names after the call is at least the number before it and at most
that number plus `min(MaxWatchedFiles, len(files))`; so a watcher that holds
more than `MaxWatchedFiles` names before the call still does after it. -/
theorem C19_reconcile_never_shrinks (env : Env) (s : State) (files : List File)
    (hM : 0 ≤ s.w.MaxWatchedFiles) :
    ∃ s2 r calls, addFilesToFileWatcher env s files = some (s2, r) ∧
      s2.trace = s.trace ++ calls ∧
      (∀ before oldest after, watcherCalls calls = before ++ Effect.Remove oldest :: after →
        ∃ name rest, after = Effect.Add name :: rest) ∧
      s.w.WatchedFilenames.length ≤ s2.w.WatchedFilenames.length ∧
      (s2.w.WatchedFilenames.length : Int) ≤
        s.w.WatchedFilenames.length + min s.w.MaxWatchedFiles files.length ∧
      (s.w.MaxWatchedFiles < (s.w.WatchedFilenames.length : Int) →
        s2.w.MaxWatchedFiles < (s2.w.WatchedFilenames.length : Int)) := by
  obtain ⟨s2, r, h⟩ := addFiles_total env s files hM
  obtain ⟨_, hmax, calls, ht, hr, _, _, hcnt, hrem⟩ := addFiles_calls env s s2 files r h
  have hle := replay_length_le s.w.WatchedFilenames calls
  have hge := replay_length_ge s.w.WatchedFilenames calls
  rw [← hr] at hle hge
  have hk := min_nonneg s.w.MaxWatchedFiles files.length hM (by omega)
  refine ⟨s2, r, calls, h, ht, addFiles_removeThenAdd env s s2 files r hM h calls ht,
    by omega, by omega, ?_⟩
  intro hover
  rw [hmax]
  omega

/-- C19 at a concrete input: capacity 1, three names watched, one new file:
one name is evicted, one added, and three names are watched afterwards. -/
theorem C19_reconcile_never_shrinks_witness :
    (0 : Int) ≤ (active 1 ["/repo/x", "/repo/y", "/repo/z"]).w.MaxWatchedFiles ∧
    (addFilesToFileWatcher envOk (active 1 ["/repo/x", "/repo/y", "/repo/z"])
        [tracked "a", tracked "b"]).map (fun t => (t.1.w.WatchedFilenames, t.1.trace)) =
      some (["/repo/y", "/repo/z", "/repo/a"],
        [Effect.Getwd, Effect.Remove "/repo/x", Effect.Add "/repo/a"]) ∧
    ∃ s2 r calls,
      addFilesToFileWatcher envOk (active 1 ["/repo/x", "/repo/y", "/repo/z"])
        [tracked "a", tracked "b"] = some (s2, r) ∧
      s2.trace = (active 1 ["/repo/x", "/repo/y", "/repo/z"]).trace ++ calls ∧
      (∀ before oldest after, watcherCalls calls = before ++ Effect.Remove oldest :: after →
        ∃ name rest, after = Effect.Add name :: rest) ∧
      (active 1 ["/repo/x", "/repo/y", "/repo/z"]).w.WatchedFilenames.length ≤
        s2.w.WatchedFilenames.length ∧
      (s2.w.WatchedFilenames.length : Int) ≤
        (active 1 ["/repo/x", "/repo/y", "/repo/z"]).w.WatchedFilenames.length +
          min (active 1 ["/repo/x", "/repo/y", "/repo/z"]).w.MaxWatchedFiles
            ([tracked "a", tracked "b"] : List File).length ∧
      ((active 1 ["/repo/x", "/repo/y", "/repo/z"]).w.MaxWatchedFiles <
          ((active 1 ["/repo/x", "/repo/y", "/repo/z"]).w.WatchedFilenames.length : Int) →
        s2.w.MaxWatchedFiles < (s2.w.WatchedFilenames.length : Int)) :=
  ⟨by decide, by decide,
    C19_reconcile_never_shrinks envOk (active 1 ["/repo/x", "/repo/y", "/repo/z"])
      [tracked "a", tracked "b"] (by decide)⟩

end FileWatching
